import Mathlib

/-!
Verification development for the streaming-transcription core of the
rejoice-slim repository: the circular audio buffer (`src/audio_buffer.py`),
the volume-based segmenter (`src/volume_segmenter.py`) and the quick
transcript assembler (`src/quick_transcript.py`).

Conventions of the shallow embedding:

* Audio time offsets handed to the ring buffer are measured in samples.
  The source converts seconds to samples with
  `int(start_time_offset * self.sample_rate * self.channels)`; the claims
  about the ring buffer concern spans of samples, so the embedding works
  directly at sample granularity (`Nat` indices).
* The numpy sample array is embedded as a total function `Nat → α`
  together with the slice-assignment used by `write`.
* Wall-clock readings (`time.time()`) are passed in explicitly as a `now : ℚ`
  argument; `time.time()` is always positive, so the Python truthiness test
  `if not self.start_time` is embedded as `start_time = none`.
* RMS values are real numbers produced by `np.sqrt`; the segmenter's
  analysis windows `(timestamp, rms)` are therefore taken as inputs of
  `analyze_and_segment` (rational approximations of the computed values);
  every claim below holds for arbitrary window values.
* Threaded code is embedded as explicit operations on the state protected
  by the corresponding lock (`AssemblerOp` for the assembler, `SegStep`
  for the segmenter); each operation is one critical section of the source.
-/

namespace RejoiceSlim

/-! ## Ring buffer: `CircularAudioBuffer` (src/audio_buffer.py) -/

/-- State of `CircularAudioBuffer`.  `buffer` is the fixed-size sample
array (indices `0 .. buffer_size-1` are meaningful), `start_time` is the
session start timestamp (`None` before the first session). -/
structure CircularAudioBuffer (α : Type) where
  buffer_size : Nat
  sample_rate : Nat
  channels : Nat
  buffer : Nat → α
  write_position : Nat
  total_samples_written : Nat
  start_time : Option ℚ
  is_recording : Bool

/-- numpy slice assignment `buffer[pos : pos + data.length] = data`. -/
def writeSlice {α : Type} (buf : Nat → α) (pos : Nat) (data : List α) : Nat → α :=
  fun i => if h : pos ≤ i ∧ i < pos + data.length then data.get ⟨i - pos, by omega⟩ else buf i

/-- numpy slice read `buffer[a : b]`. -/
def bufSlice {α : Type} (buf : Nat → α) (a b : Nat) : List α :=
  (List.range (b - a)).map (fun j => buf (a + j))

/-- `CircularAudioBuffer.__init__`. -/
def mkCircularAudioBuffer (α : Type) (capacity_seconds sample_rate channels : Nat)
    (zero : α) : CircularAudioBuffer α :=
  { buffer_size := capacity_seconds * sample_rate * channels
    sample_rate := sample_rate
    channels := channels
    buffer := fun _ => zero
    write_position := 0
    total_samples_written := 0
    start_time := none
    is_recording := false }

/-- `CircularAudioBuffer.start_recording`, with the wall clock passed in. -/
def CircularAudioBuffer.start_recording {α : Type} (b : CircularAudioBuffer α)
    (now : ℚ) : CircularAudioBuffer α :=
  { b with write_position := 0, total_samples_written := 0,
           start_time := some now, is_recording := true }

/-- `CircularAudioBuffer.stop_recording`. -/
def CircularAudioBuffer.stop_recording {α : Type} (b : CircularAudioBuffer α) :
    CircularAudioBuffer α :=
  { b with is_recording := false }

/-- `CircularAudioBuffer.write` (lines 74-108): no-op unless recording,
otherwise slice assignment with the wrap-around split, then cursor and
counter update. -/
def CircularAudioBuffer.write {α : Type} (b : CircularAudioBuffer α)
    (audio_data : List α) : CircularAudioBuffer α :=
  if b.is_recording = false then b
  else
    let data_length := audio_data.length
    let end_position := b.write_position + data_length
    let new_buffer :=
      if end_position ≤ b.buffer_size then
        writeSlice b.buffer b.write_position audio_data
      else
        let first_part_size := b.buffer_size - b.write_position
        writeSlice (writeSlice b.buffer b.write_position (audio_data.take first_part_size))
          0 (audio_data.drop first_part_size)
    { b with buffer := new_buffer,
             write_position := end_position % b.buffer_size,
             total_samples_written := b.total_samples_written + data_length }

/-- `CircularAudioBuffer.read_segment` (lines 118-166) at sample
granularity: `start_sample` and `duration_samples` are the values the
source computes from the time arguments. -/
def CircularAudioBuffer.read_segment {α : Type} (b : CircularAudioBuffer α)
    (start_sample duration_samples : Nat) : Option (List α) :=
  if b.start_time = none then none
  else
    let end_sample := start_sample + duration_samples
    if (start_sample : Int) < (b.total_samples_written : Int) - (b.buffer_size : Int) then
      none
    else if end_sample > b.total_samples_written then
      none
    else
      let buffer_start := start_sample % b.buffer_size
      let buffer_end := (start_sample + duration_samples) % b.buffer_size
      if buffer_start < buffer_end then
        some (bufSlice b.buffer buffer_start buffer_end)
      else
        some (bufSlice b.buffer buffer_start b.buffer_size ++ bufSlice b.buffer 0 buffer_end)

/-- `CircularAudioBuffer.get_recording_duration` (lines 191-202), with the
wall clock passed in.  Note the wall-clock fallback when no samples have
been written yet. -/
def CircularAudioBuffer.get_recording_duration {α : Type} (b : CircularAudioBuffer α)
    (now : ℚ) : ℚ :=
  if b.total_samples_written = 0 then
    if b.is_recording = true ∧ b.start_time ≠ none then
      now - b.start_time.getD 0
    else 0
  else (b.total_samples_written : ℚ) / ((b.sample_rate : ℚ) * (b.channels : ℚ))

/-- A recording session's writes, in order. -/
def writeAll {α : Type} (b : CircularAudioBuffer α) (ws : List (List α)) :
    CircularAudioBuffer α :=
  ws.foldl CircularAudioBuffer.write b

/-! ## Volume segmenter (src/volume_segmenter.py) -/

/-- `SegmentInfo` dataclass. -/
structure SegmentInfo where
  start_time : ℚ
  end_time : ℚ
  duration : ℚ
  reason : String
  avg_volume : ℚ
  peak_volume : ℚ
  silence_duration : ℚ
deriving DecidableEq

/-- `VolumeConfig` dataclass. -/
structure VolumeConfig where
  min_segment_duration : ℚ
  target_segment_duration : ℚ
  max_segment_duration : ℚ
  volume_drop_threshold : ℚ
  silence_threshold : ℚ
  min_pause_duration : ℚ
  analysis_window : ℚ
  lookback_window : ℚ
deriving DecidableEq

/-- The default `VolumeConfig` values. -/
def defaultVolumeConfig : VolumeConfig :=
  { min_segment_duration := 30
    target_segment_duration := 45
    max_segment_duration := 90
    volume_drop_threshold := 7/10
    silence_threshold := 1/50
    min_pause_duration := 1/2
    analysis_window := 1
    lookback_window := 5 }

/-- Mutable state of `VolumeSegmenter` (the audio buffer is consulted only
through `get_recording_duration`, which the embedding passes in as the
`current_time` argument of each operation). -/
structure VolumeSegmenter where
  config : VolumeConfig
  current_segment_start : ℚ
  last_analysis_time : ℚ
  last_speech_time : ℚ
  volume_history : List (ℚ × ℚ)
  detected_segments : List SegmentInfo
  is_analyzing : Bool
deriving DecidableEq

/-- `VolumeSegmenter.__init__`. -/
def mkVolumeSegmenter (config : VolumeConfig) : VolumeSegmenter :=
  { config := config
    current_segment_start := 0
    last_analysis_time := 0
    last_speech_time := 0
    volume_history := []
    detected_segments := []
    is_analyzing := false }

/-- `VolumeSegmenter.start_analysis`. -/
def VolumeSegmenter.start_analysis (s : VolumeSegmenter) : VolumeSegmenter :=
  { s with current_segment_start := 0, last_analysis_time := 0, last_speech_time := 0,
           volume_history := [], detected_segments := [], is_analyzing := true }

/-- `VolumeSegmenter._get_average_volume_in_range` (`np.mean`, 0 if empty). -/
def VolumeSegmenter.average_volume_in_range (s : VolumeSegmenter)
    (start_time end_time : ℚ) : ℚ :=
  let relevant := (s.volume_history.filter
    (fun p => decide (start_time ≤ p.1) && decide (p.1 ≤ end_time))).map Prod.snd
  if relevant = [] then 0 else relevant.sum / (relevant.length : ℚ)

/-- `VolumeSegmenter._get_peak_volume_in_range` (`np.max`, 0 if empty). -/
def VolumeSegmenter.peak_volume_in_range (s : VolumeSegmenter)
    (start_time end_time : ℚ) : ℚ :=
  let relevant := (s.volume_history.filter
    (fun p => decide (start_time ≤ p.1) && decide (p.1 ≤ end_time))).map Prod.snd
  match relevant with
  | [] => 0
  | v :: rest => rest.foldl max v

/-- `VolumeSegmenter._create_segment`. -/
def VolumeSegmenter.create_segment (s : VolumeSegmenter) (end_time : ℚ)
    (reason : String) (silence_duration : ℚ) : SegmentInfo :=
  { start_time := s.current_segment_start
    end_time := end_time
    duration := end_time - s.current_segment_start
    reason := reason
    avg_volume := s.average_volume_in_range s.current_segment_start end_time
    peak_volume := s.peak_volume_in_range s.current_segment_start end_time
    silence_duration := silence_duration }

/-- `VolumeSegmenter._finalize_segment`: append the segment and start the
next one at its end time. -/
def VolumeSegmenter.finalize_segment (s : VolumeSegmenter) (segment : SegmentInfo) :
    VolumeSegmenter :=
  { s with detected_segments := s.detected_segments ++ [segment],
           current_segment_start := segment.end_time }

/-- The `for`-loop of `_detect_natural_pause` (lines 267-275): scan the
recent windows chronologically, record the first silent timestamp, stop at
the first non-silent window after it. -/
def scanSilenceRun (is_silence : ℚ × ℚ → Bool) :
    List (ℚ × ℚ) → Option ℚ → Option ℚ × Option ℚ
  | [], silence_start => (silence_start, none)
  | p :: rest, silence_start =>
    if is_silence p then
      match silence_start with
      | none => scanSilenceRun is_silence rest (some p.1)
      | some t => scanSilenceRun is_silence rest (some t)
    else
      match silence_start with
      | none => scanSilenceRun is_silence rest none
      | some t => (some t, some p.1)

/-- The trailing-lookback restriction of the volume history used by
`_detect_natural_pause`. -/
def VolumeSegmenter.recent_volumes (s : VolumeSegmenter) (current_time : ℚ) :
    List (ℚ × ℚ) :=
  s.volume_history.filter (fun p => decide (p.1 ≥ current_time - s.config.lookback_window))

/-- `VolumeSegmenter._detect_natural_pause` (lines 237-291). -/
def VolumeSegmenter.detect_natural_pause (s : VolumeSegmenter) (current_time : ℚ) :
    Option (ℚ × ℚ) :=
  if s.volume_history.length < 3 then none
  else
    let recent := s.recent_volumes current_time
    if recent.length < 3 then none
    else
      let baseline_start := max s.current_segment_start
        (current_time - s.config.lookback_window)
      let baseline_volumes := (recent.filter
        (fun p => decide (baseline_start ≤ p.1) && decide (p.1 ≤ current_time - 2))).map Prod.snd
      if baseline_volumes = [] then none
      else
        let baseline_volume := baseline_volumes.sum / (baseline_volumes.length : ℚ)
        let is_silence := fun (p : ℚ × ℚ) =>
          decide (p.2 < s.config.silence_threshold) ||
          decide (p.2 < baseline_volume * s.config.volume_drop_threshold)
        let scanned := scanSilenceRun is_silence recent none
        let silence_end := match scanned.1, scanned.2 with
          | some _, none => some current_time
          | _, e => e
        match scanned.1, silence_end with
        | some st, some en =>
          if en - st ≥ s.config.min_pause_duration then some (en, en - st) else none
        | _, _ => none

/-- Spec-side (claim C5): the end of the silence that is running at the
head of `l` — the timestamp of the first non-silent window, or `T` if the
silence is still ongoing at the end of the observed windows. -/
def silenceEndFrom (is_silence : ℚ × ℚ → Bool) (T : ℚ) : List (ℚ × ℚ) → ℚ
  | [] => T
  | q :: rest => if is_silence q then silenceEndFrom is_silence T rest else q.1

/-- Spec-side (claim C5): the first maximal chronological run of silent
windows, as `(start, end)`, with `end = T` if the silence is still
ongoing. -/
def firstSilentRunSpec (is_silence : ℚ × ℚ → Bool) (T : ℚ) :
    List (ℚ × ℚ) → Option (ℚ × ℚ)
  | [] => none
  | p :: rest =>
    if is_silence p then some (p.1, silenceEndFrom is_silence T (p :: rest))
    else firstSilentRunSpec is_silence T rest

/-- Claim C5 formalised from the spec's words (no minimum-history
guards): restricted to the trailing lookback window, baseline = mean RMS
between `segment_start` and `T - 2` (no baseline samples: no pause), a
window is silent iff its RMS is below `silence_threshold` or below
`baseline * volume_drop_threshold`, and the first maximal chronological
run of silent windows (end `T` if ongoing) qualifies iff its duration is
at least `min_pause_duration`. -/
def claim_detect_natural_pause (s : VolumeSegmenter) (current_time : ℚ) :
    Option (ℚ × ℚ) :=
  let recent := s.recent_volumes current_time
  let baseline_volumes := (recent.filter
    (fun p => decide (s.current_segment_start ≤ p.1) &&
      decide (p.1 ≤ current_time - 2))).map Prod.snd
  if baseline_volumes = [] then none
  else
    let baseline_volume := baseline_volumes.sum / (baseline_volumes.length : ℚ)
    let is_silence := fun (p : ℚ × ℚ) =>
      decide (p.2 < s.config.silence_threshold) ||
      decide (p.2 < baseline_volume * s.config.volume_drop_threshold)
    match firstSilentRunSpec is_silence current_time recent with
    | none => none
    | some run =>
      if run.2 - run.1 ≥ s.config.min_pause_duration then some (run.2, run.2 - run.1)
      else none

/-- `VolumeSegmenter._check_for_segment_boundary` (lines 208-235). -/
def VolumeSegmenter.check_for_segment_boundary (s : VolumeSegmenter)
    (current_time : ℚ) : Option SegmentInfo :=
  let current_duration := current_time - s.current_segment_start
  if current_duration ≥ s.config.max_segment_duration then
    some (s.create_segment current_time "max_length" 0)
  else if current_duration < s.config.min_segment_duration then none
  else if current_duration ≥ s.config.target_segment_duration then
    match s.detect_natural_pause current_time with
    | some pause_info => some (s.create_segment pause_info.1 "natural_pause" pause_info.2)
    | none => none
  else none

/-- `VolumeSegmenter._update_volume_history` (lines 166-206): append the
new analysis windows (the iterator stops at the first window whose
timestamp has reached `current_time`), update `last_speech_time`, trim
history older than twice the lookback window. -/
def VolumeSegmenter.update_volume_history (s : VolumeSegmenter) (current_time : ℚ)
    (new_windows : List (ℚ × ℚ)) : VolumeSegmenter :=
  let appended := new_windows.takeWhile (fun p => decide (p.1 < current_time))
  let history := s.volume_history ++ appended
  let last_speech := appended.foldl
    (fun acc p => if p.2 ≥ s.config.silence_threshold then p.1 else acc) s.last_speech_time
  let cutoff_time := current_time - s.config.lookback_window * 2
  { s with volume_history := history.filter (fun p => decide (p.1 ≥ cutoff_time)),
           last_speech_time := last_speech }

/-- `VolumeSegmenter.analyze_and_segment` (lines 97-128); `current_time` is
the buffer's `get_recording_duration()`, `new_windows` the RMS windows the
iterator yields on this poll.  Returns the new state and the newly
detected segments. -/
def VolumeSegmenter.analyze_and_segment (s : VolumeSegmenter) (current_time : ℚ)
    (new_windows : List (ℚ × ℚ)) : VolumeSegmenter × List SegmentInfo :=
  if s.is_analyzing = false then (s, [])
  else if current_time ≤ s.last_analysis_time then (s, [])
  else
    let s1 := s.update_volume_history current_time new_windows
    match s1.check_for_segment_boundary current_time with
    | some segment =>
      ({ s1.finalize_segment segment with last_analysis_time := current_time }, [segment])
    | none => ({ s1 with last_analysis_time := current_time }, [])

/-- `VolumeSegmenter.flush_remaining_segment` (lines 130-164). -/
def VolumeSegmenter.flush_remaining_segment (s : VolumeSegmenter) (current_time : ℚ) :
    VolumeSegmenter × Option SegmentInfo :=
  if s.is_analyzing = false then (s, none)
  else
    let remaining_duration := current_time - s.current_segment_start
    if remaining_duration < 5 then (s, none)
    else
      let segment : SegmentInfo :=
        { start_time := s.current_segment_start
          end_time := current_time
          duration := remaining_duration
          reason := "final_flush"
          avg_volume := s.average_volume_in_range s.current_segment_start current_time
          peak_volume := s.peak_volume_in_range s.current_segment_start current_time
          silence_duration := 0 }
      (s.finalize_segment segment, some segment)

/-- One observable interaction with the segmenter while it runs. -/
inductive SegStep where
  | analyze (current_time : ℚ) (new_windows : List (ℚ × ℚ))
  | flush (current_time : ℚ)
deriving DecidableEq

/-- Apply one interaction, keeping the updated state. -/
def applySegStep (s : VolumeSegmenter) : SegStep → VolumeSegmenter
  | .analyze current_time new_windows => (s.analyze_and_segment current_time new_windows).1
  | .flush current_time => (s.flush_remaining_segment current_time).1

/-- Run a whole sequence of interactions. -/
def runSegSteps (s : VolumeSegmenter) (steps : List SegStep) : VolumeSegmenter :=
  steps.foldl applySegStep s

/-- Spec-side predicate for claim C10: the segment list is a contiguous,
chronologically ordered partition of the audio time starting at `a` —
each segment starts where the previous one ended, ends strictly later
than it starts, and its `duration` field is consistent. -/
def isPartitionFromB : ℚ → List SegmentInfo → Bool
  | _, [] => true
  | a, segment :: rest =>
    decide (segment.start_time = a) && decide (segment.start_time < segment.end_time) &&
    decide (segment.duration = segment.end_time - segment.start_time) &&
    isPartitionFromB segment.end_time rest

/-- End time of the last segment in the list (`d` if the list is empty). -/
def lastEnd (l : List SegmentInfo) (d : ℚ) : ℚ :=
  l.foldl (fun _ segment => segment.end_time) d

/-! ## Quick transcript assembler (src/quick_transcript.py) -/

/-- `TranscriptionSegment` dataclass. -/
structure TranscriptionSegment where
  segment_info : SegmentInfo
  transcription : String
  timestamp : ℚ
  processing_time : ℚ
  status : String
  error : Option String
deriving DecidableEq

/-- Python `dict` lookup on an insertion-ordered association list. -/
def dictFind {β : Type} : List (String × β) → String → Option β
  | [], _ => none
  | p :: rest, key => if p.1 = key then some p.2 else dictFind rest key

/-- Python `dict.__setitem__`: replace in place if present, else append. -/
def dictSet {β : Type} (d : List (String × β)) (key : String) (v : β) :
    List (String × β) :=
  if (dictFind d key).isSome then
    d.map (fun p => if p.1 = key then (key, v) else p)
  else d ++ [(key, v)]

/-- In-place update of the value stored under `key` (if present). -/
def dictModify {β : Type} (d : List (String × β)) (key : String) (f : β → β) :
    List (String × β) :=
  d.map (fun p => if p.1 = key then (p.1, f p.2) else p)

/-- State of `QuickTranscriptAssembler` guarded by its lock. -/
structure QuickTranscriptAssembler where
  current_session : Option String
  transcription_segments : List (String × TranscriptionSegment)
  segment_order : List String
  is_processing : Bool
  recent_segment_texts : List String
  empty_segment_threshold : Nat
  empty_segment_min_chars : Nat
  segments_received : Nat
  segments_completed : Nat
  segments_failed : Nat
  consecutive_empty_count : Nat
  auto_clipboard : Bool
deriving DecidableEq

/-- `QuickTranscriptAssembler.__init__` (the two thresholds come from the
environment). -/
def mkQuickTranscriptAssembler (empty_segment_threshold empty_segment_min_chars : Nat)
    (auto_clipboard : Bool) : QuickTranscriptAssembler :=
  { current_session := none
    transcription_segments := []
    segment_order := []
    is_processing := false
    recent_segment_texts := []
    empty_segment_threshold := empty_segment_threshold
    empty_segment_min_chars := empty_segment_min_chars
    segments_received := 0
    segments_completed := 0
    segments_failed := 0
    consecutive_empty_count := 0
    auto_clipboard := auto_clipboard }

/-- `QuickTranscriptAssembler.start_session`. -/
def QuickTranscriptAssembler.start_session (a : QuickTranscriptAssembler)
    (session_id : String) : QuickTranscriptAssembler :=
  { a with current_session := some session_id
           transcription_segments := []
           segment_order := []
           is_processing := true
           segments_received := 0
           segments_completed := 0
           segments_failed := 0
           consecutive_empty_count := 0 }

/-- `QuickTranscriptAssembler.add_segment_for_transcription` (lines
141-180).  The source derives `segment_id` from the segment's start and
end times by decimal formatting; the embedding takes the derived id as an
argument. -/
def QuickTranscriptAssembler.add_segment_for_transcription (a : QuickTranscriptAssembler)
    (segment_info : SegmentInfo) (segment_id : String) (now : ℚ) :
    QuickTranscriptAssembler :=
  if a.is_processing = false then a
  else
    let transcription_segment : TranscriptionSegment :=
      { segment_info := segment_info
        transcription := ""
        timestamp := now
        processing_time := 0
        status := "pending"
        error := none }
    { a with transcription_segments :=
               dictSet a.transcription_segments segment_id transcription_segment,
             segment_order := a.segment_order ++ [segment_id],
             segments_received := a.segments_received + 1 }

/-- First critical section of `_transcribe_segment` (lines 193-196): mark
the segment as processing, a no-op if the id is unknown. -/
def QuickTranscriptAssembler.set_processing (a : QuickTranscriptAssembler)
    (segment_id : String) : QuickTranscriptAssembler :=
  if (dictFind a.transcription_segments segment_id).isSome then
    { a with
        transcription_segments := dictModify a.transcription_segments segment_id
          (fun segment => { segment with status := "processing" }) }
  else a

/-- `QuickTranscriptAssembler._update_empty_segment_counter` (lines
499-513). -/
def QuickTranscriptAssembler.update_empty_segment_counter (a : QuickTranscriptAssembler)
    (transcription : String) : QuickTranscriptAssembler :=
  let texts := a.recent_segment_texts ++ [transcription.trim]
  { a with recent_segment_texts :=
      if a.empty_segment_threshold < texts.length then texts.drop 1 else texts }

/-- Success path of `_transcribe_segment` after the external transcription
returns (lines 203-221): store text and processing time, mark completed,
bump the counters (all guarded by the id still being present), then feed
the text into the auto-stop sliding window. -/
def QuickTranscriptAssembler.complete_segment (a : QuickTranscriptAssembler)
    (segment_id transcription : String) (processing_time : ℚ) :
    QuickTranscriptAssembler :=
  let a1 :=
    if (dictFind a.transcription_segments segment_id).isSome then
      { a with transcription_segments := dictModify a.transcription_segments segment_id
                 (fun segment => { segment with transcription := transcription,
                                                processing_time := processing_time,
                                                status := "completed" })
               segments_completed := a.segments_completed + 1 }
    else a
  a1.update_empty_segment_counter transcription

/-- Failure path of `_transcribe_segment` (lines 225-233). -/
def QuickTranscriptAssembler.fail_segment (a : QuickTranscriptAssembler)
    (segment_id error : String) : QuickTranscriptAssembler :=
  if (dictFind a.transcription_segments segment_id).isSome then
    { a with transcription_segments := dictModify a.transcription_segments segment_id
               (fun segment => { segment with status := "failed", error := some error })
             segments_failed := a.segments_failed + 1 }
  else a

/-- `QuickTranscriptAssembler.get_current_transcript` (lines 291-306). -/
def QuickTranscriptAssembler.get_current_transcript (a : QuickTranscriptAssembler) :
    String :=
  let transcript_parts := a.segment_order.foldl
    (fun parts segment_id =>
      match dictFind a.transcription_segments segment_id with
      | some segment =>
        if segment.status == "completed" && segment.transcription.trim != "" then
          parts ++ [segment.transcription.trim]
        else parts
      | none => parts)
    []
  String.intercalate " " transcript_parts

/-- `QuickTranscriptAssembler.should_auto_stop` (lines 515-539). -/
def QuickTranscriptAssembler.should_auto_stop (a : QuickTranscriptAssembler) :
    Bool × String :=
  if a.recent_segment_texts.length < a.empty_segment_threshold then (false, "")
  else
    let combined_text := (String.intercalate " " a.recent_segment_texts).trim
    let combined_length := combined_text.length
    if combined_length < a.empty_segment_min_chars then
      (true, "Last " ++ toString a.empty_segment_threshold ++
        " segments combined have < " ++ toString a.empty_segment_min_chars ++
        " chars (" ++ toString combined_length ++ " chars)")
    else (false, "")

/-- `QuickTranscriptResult` dataclass (the wall-clock processing summary
is omitted). -/
structure QuickTranscriptResult where
  transcript_id : String
  transcript_text : String
  segments_count : Nat
  total_duration : ℚ
  file_path : String
  clipboard_copied : Bool
  has_content : Bool
deriving DecidableEq

/-- Result of `finalize_transcript` together with which external
contracts were invoked. -/
structure FinalizeOutcome where
  state : QuickTranscriptAssembler
  result : Option QuickTranscriptResult
  persist_invoked : Bool
  clipboard_invoked : Bool

/-- `QuickTranscriptAssembler.finalize_transcript` (lines 334-402).  The
poll in `wait_for_completion` does not change the assembler state, so the
embedding finalizes the state as it stands after the wait.  The
persistence contract's return values (path and transcript id) and the
clipboard contract's success flag are passed in; the booleans of the
outcome record whether those contracts were invoked at all. -/
def QuickTranscriptAssembler.finalize_transcript (a : QuickTranscriptAssembler)
    (persist_path persist_id : String) (clipboard_ok : Bool) : FinalizeOutcome :=
  match a.current_session with
  | none => { state := a, result := none, persist_invoked := false, clipboard_invoked := false }
  | some session =>
    let final_transcript := a.get_current_transcript.trim
    let has_content : Bool := final_transcript != ""
    let completed_segments := (a.transcription_segments.map Prod.snd).filter
      (fun segment => segment.status == "completed")
    let total_duration : ℚ :=
      match completed_segments with
      | [] => 0
      | segment :: rest =>
        (rest.map (fun x => x.segment_info.end_time)).foldl max segment.segment_info.end_time
    let file_path := if has_content then persist_path else ""
    let final_transcript_id : Option String := if has_content then some persist_id else none
    let clipboard_success := if a.auto_clipboard && has_content then clipboard_ok else false
    let result : QuickTranscriptResult :=
      { transcript_id :=
          match final_transcript_id with
          | some tid => if tid == "" then session else tid
          | none => session
        transcript_text := final_transcript
        segments_count := completed_segments.length
        total_duration := total_duration
        file_path := file_path
        clipboard_copied := clipboard_success
        has_content := has_content }
    { state := { a with is_processing := false }
      result := some result
      persist_invoked := has_content
      clipboard_invoked := a.auto_clipboard && has_content }

/-- One critical section of the assembler. -/
inductive AssemblerOp where
  | startSession (session_id : String)
  | addSeg (segment_info : SegmentInfo) (segment_id : String) (now : ℚ)
  | setProcessing (segment_id : String)
  | complete (segment_id transcription : String) (processing_time : ℚ)
  | failSeg (segment_id error : String)
deriving DecidableEq

/-- Apply one assembler operation. -/
def applyAssemblerOp (a : QuickTranscriptAssembler) : AssemblerOp → QuickTranscriptAssembler
  | .startSession session_id => a.start_session session_id
  | .addSeg segment_info segment_id now =>
    a.add_segment_for_transcription segment_info segment_id now
  | .setProcessing segment_id => a.set_processing segment_id
  | .complete segment_id transcription processing_time =>
    a.complete_segment segment_id transcription processing_time
  | .failSeg segment_id error => a.fail_segment segment_id error

/-- Run a sequence of assembler operations. -/
def applyAssemblerOps (a : QuickTranscriptAssembler) (ops : List AssemblerOp) :
    QuickTranscriptAssembler :=
  ops.foldl applyAssemblerOp a

/-- Whether an operation is a transcription completion. -/
def AssemblerOp.isComplete : AssemblerOp → Bool
  | .complete _ _ _ => true
  | _ => false

/-- The segment id an operation refers to. -/
def AssemblerOp.opId : AssemblerOp → String
  | .startSession session_id => session_id
  | .addSeg _ segment_id _ => segment_id
  | .setProcessing segment_id => segment_id
  | .complete segment_id _ _ => segment_id
  | .failSeg segment_id _ => segment_id

/-- Spec-side description for claim C3: the non-empty stripped texts of
completed segments, iterated in submission order. -/
def completedTextsInSubmissionOrder (a : QuickTranscriptAssembler) : List String :=
  a.segment_order.filterMap (fun segment_id =>
    match dictFind a.transcription_segments segment_id with
    | some segment =>
      if segment.status = "completed" ∧ segment.transcription.trim ≠ ""
      then some segment.transcription.trim else none
    | none => none)

/-- The transcript-relevant projection of the assembler state: the
submission-order list and the per-id segment record. -/
def transcriptEquiv (a b : QuickTranscriptAssembler) : Prop :=
  a.segment_order = b.segment_order ∧
  ∀ segment_id, dictFind a.transcription_segments segment_id
    = dictFind b.transcription_segments segment_id

/-- The stripped texts fed to the auto-stop window by a sequence of
operations, in the order the completions arrive. -/
def completeTexts (ops : List AssemblerOp) : List String :=
  ops.filterMap (fun op => match op with
    | .complete _ transcription _ => some transcription.trim
    | _ => none)

/-- Spec-side formalisation of claim C7 exactly as stated: the last
`empty_segment_threshold` completed segments' raw texts in submission
(arrival) order, combined and measured against `empty_segment_min_chars`. -/
def claimAutoStop (a : QuickTranscriptAssembler) : Bool :=
  let completed_raw := a.segment_order.filterMap (fun segment_id =>
    match dictFind a.transcription_segments segment_id with
    | some segment =>
      if segment.status = "completed" then some segment.transcription else none
    | none => none)
  let window := completed_raw.drop (completed_raw.length - a.empty_segment_threshold)
  decide (a.empty_segment_threshold ≤ completed_raw.length) &&
  decide ((String.intercalate " " window).trim.length < a.empty_segment_min_chars)

/-- The last `thr` completion-order stripped texts produced by a sequence
of operations: the contents of the code's auto-stop sliding window. -/
def autoStopWindow (thr : Nat) (ops : List AssemblerOp) : List String :=
  (completeTexts ops).drop ((completeTexts ops).length - thr)

/-! ## Fixtures for witnesses and counterexamples -/

/-- A small concrete buffer session for the C1 witness: capacity 5
samples, recording started, then two writes. -/
def c1Buffer : CircularAudioBuffer Int :=
  (mkCircularAudioBuffer Int 5 1 1 0).start_recording 0

/-- Concrete buffer for the C2 witness. -/
def c2Buffer : CircularAudioBuffer Int :=
  (mkCircularAudioBuffer Int 1 1 1 0).start_recording 0

/-- Recording started, no samples written yet: the state where claim C9
fails on the code. -/
def c9Buffer : CircularAudioBuffer Int :=
  (mkCircularAudioBuffer Int 10 1 1 0).start_recording 5

/-- Recording with two samples written, for the C9 witness. -/
def c9WitnessBuffer : CircularAudioBuffer Int :=
  ((mkCircularAudioBuffer Int 10 1 1 0).start_recording 0).write [1, 2]

/-- A freshly started segmenter with the default configuration. -/
def segmenterFix : VolumeSegmenter :=
  (mkVolumeSegmenter defaultVolumeConfig).start_analysis

/-- Segmenter with only two analysis windows in its history: a loud one
at `t = 7` and a silent one at `t = 8`. -/
def c5Segmenter : VolumeSegmenter :=
  { segmenterFix with volume_history := [(7, 1/2), (8, 1/1000)] }

/-- Segmenter with three analysis windows, for the C5 witness. -/
def c5WitnessSegmenter : VolumeSegmenter :=
  { segmenterFix with volume_history := [(6, 1/2), (7, 1/2), (8, 1/1000)] }

/-- A degenerate configuration (lookback window far larger than the
target duration) under which the segment partition invariant fails. -/
def c10BadConfig : VolumeConfig :=
  { min_segment_duration := 0
    target_segment_duration := 1
    max_segment_duration := 1000
    volume_drop_threshold := 0
    silence_threshold := 1
    min_pause_duration := 1/2
    analysis_window := 1
    lookback_window := 100 }

/-- Two polls whose stale silent window at `t = 0` stays inside the huge
lookback window and is detected as a "natural pause" twice. -/
def c10BadSteps : List SegStep :=
  [SegStep.analyze (9/2) [(0, 0), (1, 5), (2, 5), (3, 5), (4, 5)],
   SegStep.analyze 6 [(9/2, 5), (5, 5)]]

/-- A concrete detected segment. -/
def infoA : SegmentInfo :=
  { start_time := 0, end_time := 30, duration := 30, reason := "natural_pause",
    avg_volume := 1/10, peak_volume := 1/2, silence_duration := 1 }

/-- A second concrete detected segment. -/
def infoB : SegmentInfo :=
  { start_time := 30, end_time := 60, duration := 30, reason := "max_length",
    avg_volume := 1/10, peak_volume := 1/2, silence_duration := 0 }

/-- A third concrete detected segment. -/
def infoC : SegmentInfo :=
  { start_time := 60, end_time := 90, duration := 30, reason := "natural_pause",
    avg_volume := 1/10, peak_volume := 1/2, silence_duration := 1 }

/-- An assembler session with two segments submitted and still pending,
for the C3 witness. -/
def assemblerFix : QuickTranscriptAssembler :=
  (((mkQuickTranscriptAssembler 3 10 true).start_session "session-1").add_segment_for_transcription
      infoA "seg_0.0_30.0" 0).add_segment_for_transcription infoB "seg_30.0_60.0" 0

/-- Submission order A, B, C but completion order C, A, B, with the only
substantial text in C: the code's auto-stop window then holds the two
empty texts while the claim's submission-order window holds C's text. -/
def c7Ops : List AssemblerOp :=
  [AssemblerOp.startSession "s",
   AssemblerOp.addSeg infoA "segA" 0,
   AssemblerOp.addSeg infoB "segB" 0,
   AssemblerOp.addSeg infoC "segC" 0,
   AssemblerOp.setProcessing "segA",
   AssemblerOp.setProcessing "segB",
   AssemblerOp.setProcessing "segC",
   AssemblerOp.complete "segC" "this is a long sentence" 1,
   AssemblerOp.complete "segA" "" 1,
   AssemblerOp.complete "segB" "" 1]

/-- The assembler state reached by `c7Ops` with threshold 2 and minimum
10 characters. -/
def c7State : QuickTranscriptAssembler :=
  applyAssemblerOps (mkQuickTranscriptAssembler 2 10 true) c7Ops

/-- A session with one segment submitted and never completed, for the C8
witness. -/
def c8State : QuickTranscriptAssembler :=
  ((mkQuickTranscriptAssembler 3 10 true).start_session "sess").add_segment_for_transcription
    infoA "seg_a" 0

/-! ## Theorems: ring buffer -/

theorem writeSlice_of_not_covered {α : Type} (buf : Nat → α) (pos : Nat) (data : List α)
    (i : Nat) (h : ¬(pos ≤ i ∧ i < pos + data.length)) :
    writeSlice buf pos data i = buf i := by
  simp only [writeSlice]
  exact dif_neg h

theorem writeSlice_covered {α : Type} (buf : Nat → α) (pos : Nat) (data : List α)
    (i : Nat) (h1 : pos ≤ i) (h2 : i < pos + data.length)
    (h3 : i - pos < data.length) :
    writeSlice buf pos data i = data.get ⟨i - pos, h3⟩ := by
  simp only [writeSlice]
  exact dif_pos ⟨h1, h2⟩

/-- State of the buffer after a sequence of writes that (together with the
already-present prefix `pre`) stays strictly below the physical capacity:
the logical sample stream sits at its own indices, without wrap-around. -/
theorem writeAll_flat {α : Type} (ws : List (List α)) (b : CircularAudioBuffer α)
    (pre : List α)
    (hrec : b.is_recording = true)
    (hwp : b.write_position = pre.length)
    (htot : b.total_samples_written = pre.length)
    (hcap : pre.length + (ws.map List.length).sum < b.buffer_size)
    (hbuf : ∀ k (h2 : k < pre.length), b.buffer k = pre.get ⟨k, h2⟩) :
    (writeAll b ws).is_recording = true ∧
    (writeAll b ws).start_time = b.start_time ∧
    (writeAll b ws).buffer_size = b.buffer_size ∧
    (writeAll b ws).sample_rate = b.sample_rate ∧
    (writeAll b ws).channels = b.channels ∧
    (writeAll b ws).write_position = pre.length + (ws.map List.length).sum ∧
    (writeAll b ws).total_samples_written = pre.length + (ws.map List.length).sum ∧
    ∀ k (h2 : k < (pre ++ ws.flatten).length),
      (writeAll b ws).buffer k = (pre ++ ws.flatten).get ⟨k, h2⟩ := by
  induction ws generalizing b pre with
  | nil =>
    refine ⟨hrec, rfl, rfl, rfl, rfl, by simpa using hwp, by simpa using htot, ?_⟩
    intro k h2
    have h2b : k < pre.length := by simpa using h2
    have heq : pre ++ ([] : List (List α)).flatten = pre := by simp
    exact (hbuf k h2b).trans (List.get_of_eq heq ⟨k, h2⟩).symm
  | cons w ws ih =>
    have hsum : ((w :: ws).map List.length).sum = w.length + (ws.map List.length).sum := by
      simp
    have hcapw : pre.length + w.length ≤ pre.length + ((w :: ws).map List.length).sum := by
      rw [hsum]; omega
    have hlt : pre.length + w.length < b.buffer_size := lt_of_le_of_lt hcapw hcap
    -- unfold the single write
    have hwrite : b.write w =
        { b with buffer := writeSlice b.buffer b.write_position w,
                 write_position := (b.write_position + w.length) % b.buffer_size,
                 total_samples_written := b.total_samples_written + w.length } := by
      simp only [CircularAudioBuffer.write, hrec]
      rw [if_neg (by simp)]
      rw [if_pos (by rw [hwp]; omega)]
    have hwp2 : (b.write w).write_position = (pre ++ w).length := by
      rw [hwrite]; simp only [List.length_append, hwp]
      exact Nat.mod_eq_of_lt hlt
    have htot2 : (b.write w).total_samples_written = (pre ++ w).length := by
      rw [hwrite]; simp [htot]
    have hrec2 : (b.write w).is_recording = true := by rw [hwrite]; exact hrec
    have hsz2 : (b.write w).buffer_size = b.buffer_size := by rw [hwrite]
    have hbufw : (b.write w).buffer = writeSlice b.buffer b.write_position w := by
      rw [hwrite]
    have hcap2 : (pre ++ w).length + (ws.map List.length).sum < (b.write w).buffer_size := by
      rw [hsz2, List.length_append]
      calc pre.length + w.length + (ws.map List.length).sum
          = pre.length + ((w :: ws).map List.length).sum := by rw [hsum]; ring
        _ < b.buffer_size := hcap
    have hbuf2 : ∀ k (h2 : k < (pre ++ w).length),
        (b.write w).buffer k = (pre ++ w).get ⟨k, h2⟩ := by
      intro k h2
      rw [hbufw]
      simp only [List.length_append] at h2
      by_cases hk : k < pre.length
      · rw [writeSlice_of_not_covered b.buffer b.write_position w k (by rw [hwp]; omega)]
        rw [hbuf k hk]
        simp only [List.get_eq_getElem]
        exact (List.getElem_append_left hk).symm
      · have hge : pre.length ≤ k := Nat.le_of_not_lt hk
        have hsub : k - pre.length < w.length := by omega
        rw [writeSlice_covered b.buffer b.write_position w k (by rw [hwp]; omega)
          (by rw [hwp]; omega) (by rw [hwp]; exact hsub)]
        simp only [List.get_eq_getElem, hwp]
        exact (List.getElem_append_right hge).symm
    have hst2 : (b.write w).start_time = b.start_time := by rw [hwrite]
    have hsr2 : (b.write w).sample_rate = b.sample_rate := by rw [hwrite]
    have hch2 : (b.write w).channels = b.channels := by rw [hwrite]
    have step : writeAll b (w :: ws) = writeAll (b.write w) ws := by
      simp [writeAll]
    obtain ⟨p1, p2, p3, p4, p5, p6, p7, p8⟩ :=
      ih (b.write w) (pre ++ w) hrec2 hwp2 htot2 hcap2 hbuf2
    rw [step]
    refine ⟨p1, p2.trans hst2, p3.trans hsz2, p4.trans hsr2, p5.trans hch2, ?_, ?_, ?_⟩
    · rw [p6, List.length_append, hsum]; ring
    · rw [p7, List.length_append, hsum]; ring
    · have heq : pre ++ (w :: ws).flatten = (pre ++ w) ++ ws.flatten := by
        simp [List.append_assoc]
      intro k h2
      have h3 : k < ((pre ++ w) ++ ws.flatten).length := by rw [← heq]; exact h2
      calc (writeAll (b.write w) ws).buffer k
          = ((pre ++ w) ++ ws.flatten).get ⟨k, h3⟩ := p8 k h3
        _ = (pre ++ (w :: ws).flatten).get ⟨k, h2⟩ := (List.get_of_eq heq ⟨k, h2⟩).symm

/-- Claim C1: for every sequence of writes totalling fewer samples than
the buffer capacity, performed while recording, `read_segment` of any
previously written, still-retained span returns exactly the samples that
were written into that span. -/
theorem read_segment_roundtrip {α : Type} (b0 : CircularAudioBuffer α) (now : ℚ)
    (ws : List (List α)) (start_sample duration_samples : Nat)
    (hcap : (ws.map List.length).sum < b0.buffer_size)
    (hdur : 0 < duration_samples)
    (hold : ((ws.map List.length).sum : Int) - (b0.buffer_size : Int) ≤ (start_sample : Int))
    (hend : start_sample + duration_samples ≤ (ws.map List.length).sum) :
    (writeAll (b0.start_recording now) ws).read_segment start_sample duration_samples
      = some ((ws.flatten.drop start_sample).take duration_samples) := by
  obtain ⟨hrec, hst, hsz, _, _, hwp, htot, hbuf⟩ :=
    writeAll_flat ws (b0.start_recording now) [] rfl rfl rfl (by simpa using hcap)
      (by intro k hk; exact absurd hk (Nat.not_lt_zero k))
  set c := writeAll (b0.start_recording now) ws with hc
  have hst2 : c.start_time = some now := hst
  have hsz2 : c.buffer_size = b0.buffer_size := hsz
  have htot2 : c.total_samples_written = (ws.map List.length).sum := by simpa using htot
  have hflatlen : ws.flatten.length = (ws.map List.length).sum := by
    simp [List.length_flatten]
  have hstart_lt : start_sample < b0.buffer_size := by omega
  have hend_lt : start_sample + duration_samples < b0.buffer_size := by omega
  simp only [CircularAudioBuffer.read_segment]
  rw [if_neg (by rw [hst2]; simp)]
  rw [if_neg (by rw [htot2, hsz2]; omega)]
  rw [if_neg (by rw [htot2]; omega)]
  rw [hsz2]
  rw [Nat.mod_eq_of_lt hstart_lt, Nat.mod_eq_of_lt hend_lt]
  rw [if_pos (by omega : start_sample < start_sample + duration_samples)]
  congr 1
  have hlen1 : (bufSlice c.buffer start_sample (start_sample + duration_samples)).length
      = duration_samples := by
    simp [bufSlice]
  apply List.ext_get
  · rw [hlen1]
    rw [List.length_take, List.length_drop, hflatlen]
    omega
  · intro i h1 h2
    have hi : i < duration_samples := by rwa [hlen1] at h1
    have hin : start_sample + i < ([] ++ ws.flatten).length := by
      simp only [List.nil_append]
      omega
    have hbufi := hbuf (start_sample + i) hin
    simp only [List.nil_append] at hbufi
    simp only [bufSlice, List.get_eq_getElem, List.getElem_map, List.getElem_range,
      List.getElem_take, List.getElem_drop]
    exact hbufi

/-- Witness for C1: a concrete two-write session with a span read back. -/
theorem read_segment_roundtrip_witness :
    (([[1, 2], [3]].map List.length).sum < c1Buffer.buffer_size ∧
      0 < 2 ∧
      (([[1, 2], [3]].map List.length).sum : Int) - (c1Buffer.buffer_size : Int) ≤ (1 : Int) ∧
      1 + 2 ≤ (([[1, 2], [3]].map List.length).sum)) ∧
    (writeAll c1Buffer [[1, 2], [3]]).read_segment 1 2
      = some ((([[1, 2], [3]] : List (List Int)).flatten.drop 1).take 2) := by
  refine ⟨⟨by decide, by decide, by decide, by decide⟩, ?_⟩
  have h := read_segment_roundtrip (mkCircularAudioBuffer Int 5 1 1 0) 0 [[1, 2], [3]]
    1 2 (by decide) (by decide) (by decide) (by decide)
  exact h

/-- Claim C2: for every buffer state, a request for a span that is older
than `total_written - capacity` or ends beyond `total_written` returns the
explicit unavailable result `none`. -/
theorem read_segment_unavailable {α : Type} (b : CircularAudioBuffer α)
    (start_sample duration_samples : Nat)
    (h : (start_sample : Int) < (b.total_samples_written : Int) - (b.buffer_size : Int) ∨
         b.total_samples_written < start_sample + duration_samples) :
    b.read_segment start_sample duration_samples = none := by
  simp only [CircularAudioBuffer.read_segment]
  split_ifs with h1 h2 h3 h4 <;> first
    | rfl
    | (exfalso; omega)

/-- Witness for C2: reading beyond the data written so far is unavailable. -/
theorem read_segment_unavailable_witness :
    (((0 : Nat) : Int) < (c2Buffer.total_samples_written : Int) - (c2Buffer.buffer_size : Int) ∨
      c2Buffer.total_samples_written < 0 + 5) ∧
    c2Buffer.read_segment 0 5 = none := by
  refine ⟨Or.inr (by decide), ?_⟩
  exact read_segment_unavailable c2Buffer 0 5 (Or.inr (by decide))

/-- Counterexample to claim C9: with recording started and no samples
written yet, `get_recording_duration` returns the wall-clock elapsed time
(here `7 - 5 = 2`), not `total_samples_written / (sample_rate * channels)`
(which is `0`). -/
theorem get_recording_duration_wall_clock_counterexample :
    c9Buffer.get_recording_duration 7 ≠
      (c9Buffer.total_samples_written : ℚ) /
        ((c9Buffer.sample_rate : ℚ) * (c9Buffer.channels : ℚ)) := by
  rw [show c9Buffer.get_recording_duration 7 = (7 : ℚ) - 5 from rfl,
      show c9Buffer.total_samples_written = 0 from rfl,
      show c9Buffer.sample_rate = 1 from rfl,
      show c9Buffer.channels = 1 from rfl]
  norm_num

/-- Amended claim C9: whenever at least one sample has been written,
`get_recording_duration` returns `total_samples_written / (sample_rate *
channels)`, elapsed audio-time derived from captured samples. -/
theorem get_recording_duration_audio_time {α : Type} (b : CircularAudioBuffer α)
    (now : ℚ) (h : b.total_samples_written ≠ 0) :
    b.get_recording_duration now =
      (b.total_samples_written : ℚ) / ((b.sample_rate : ℚ) * (b.channels : ℚ)) := by
  simp [CircularAudioBuffer.get_recording_duration, h]

/-- Witness for the amended C9. -/
theorem get_recording_duration_audio_time_witness :
    c9WitnessBuffer.total_samples_written ≠ 0 ∧
    c9WitnessBuffer.get_recording_duration 9 =
      (c9WitnessBuffer.total_samples_written : ℚ) /
        ((c9WitnessBuffer.sample_rate : ℚ) * (c9WitnessBuffer.channels : ℚ)) :=
  ⟨by decide, get_recording_duration_audio_time c9WitnessBuffer 9 (by decide)⟩

/-! ## Theorems: volume segmenter boundary decisions -/

/-- Claim C4: on every boundary check with current audio time `T`, the
decision evaluates in priority order — at or past `max_segment_duration`
a `max_length` segment ending at `T` is emitted; below
`min_segment_duration` nothing; at or past `target_segment_duration` the
natural-pause search alone decides (a `natural_pause` segment exactly
when it reports a pause); otherwise nothing; and after any emitted
segment the next segment starts at the emitted boundary time. -/
theorem check_boundary_priority (s : VolumeSegmenter) (T : ℚ) :
    (T - s.current_segment_start ≥ s.config.max_segment_duration →
      s.check_for_segment_boundary T = some (s.create_segment T "max_length" 0) ∧
      (s.create_segment T "max_length" 0).reason = "max_length" ∧
      (s.create_segment T "max_length" 0).end_time = T) ∧
    (¬(T - s.current_segment_start ≥ s.config.max_segment_duration) →
      T - s.current_segment_start < s.config.min_segment_duration →
      s.check_for_segment_boundary T = none) ∧
    (¬(T - s.current_segment_start ≥ s.config.max_segment_duration) →
      ¬(T - s.current_segment_start < s.config.min_segment_duration) →
      T - s.current_segment_start ≥ s.config.target_segment_duration →
      s.check_for_segment_boundary T
        = (s.detect_natural_pause T).map
            (fun pause_info => s.create_segment pause_info.1 "natural_pause" pause_info.2)) ∧
    (¬(T - s.current_segment_start ≥ s.config.max_segment_duration) →
      ¬(T - s.current_segment_start < s.config.min_segment_duration) →
      ¬(T - s.current_segment_start ≥ s.config.target_segment_duration) →
      s.check_for_segment_boundary T = none) ∧
    (∀ segment, (s.finalize_segment segment).current_segment_start = segment.end_time) := by
  refine ⟨?_, ?_, ?_, ?_, ?_⟩
  · intro h1
    simp only [VolumeSegmenter.check_for_segment_boundary]
    rw [if_pos h1]
    exact ⟨rfl, rfl, rfl⟩
  · intro h1 h2
    simp only [VolumeSegmenter.check_for_segment_boundary]
    rw [if_neg h1, if_pos h2]
  · intro h1 h2 h3
    simp only [VolumeSegmenter.check_for_segment_boundary]
    rw [if_neg h1, if_neg h2, if_pos h3]
    cases hd : s.detect_natural_pause T <;> simp
  · intro h1 h2 h3
    simp only [VolumeSegmenter.check_for_segment_boundary]
    rw [if_neg h1, if_neg h2, if_neg h3]
  · intro segment
    simp [VolumeSegmenter.finalize_segment]

/-- Witness for C4: with the default configuration, at `T = 100` into an
untouched segment the `max_length` branch fires. -/
theorem check_boundary_priority_witness :
    segmenterFix.check_for_segment_boundary 100
      = some (segmenterFix.create_segment 100 "max_length" 0) ∧
    (segmenterFix.create_segment 100 "max_length" 0).reason = "max_length" ∧
    (segmenterFix.create_segment 100 "max_length" 0).end_time = 100 :=
  (check_boundary_priority segmenterFix 100).1
    (by
      rw [show segmenterFix.current_segment_start = 0 from rfl,
        show segmenterFix.config.max_segment_duration = 90 from rfl]
      norm_num)

/-- Claim C6: while analysis is active, `flush_remaining_segment` discards
a tail strictly shorter than 5 seconds and otherwise emits exactly one
`final_flush` segment spanning `[current_segment_start, T)`. -/
theorem flush_remaining_segment_spec (s : VolumeSegmenter) (T : ℚ)
    (h : s.is_analyzing = true) :
    (T - s.current_segment_start < 5 → s.flush_remaining_segment T = (s, none)) ∧
    (¬(T - s.current_segment_start < 5) →
      ∃ segment, s.flush_remaining_segment T = (s.finalize_segment segment, some segment) ∧
        segment.reason = "final_flush" ∧
        segment.start_time = s.current_segment_start ∧
        segment.end_time = T ∧
        segment.duration = T - s.current_segment_start) := by
  constructor
  · intro h2
    simp only [VolumeSegmenter.flush_remaining_segment, h]
    rw [if_neg (by simp), if_pos h2]
  · intro h2
    refine ⟨{ start_time := s.current_segment_start, end_time := T,
              duration := T - s.current_segment_start, reason := "final_flush",
              avg_volume := s.average_volume_in_range s.current_segment_start T,
              peak_volume := s.peak_volume_in_range s.current_segment_start T,
              silence_duration := 0 }, ?_, rfl, rfl, rfl, rfl⟩
    simp only [VolumeSegmenter.flush_remaining_segment, h]
    rw [if_neg (by simp), if_neg h2]

/-- Witness for C6: flushing the default segmenter at `T = 10` emits the
final segment. -/
theorem flush_remaining_segment_spec_witness :
    ∃ segment, segmenterFix.flush_remaining_segment 10
        = (segmenterFix.finalize_segment segment, some segment) ∧
      segment.reason = "final_flush" ∧
      segment.start_time = segmenterFix.current_segment_start ∧
      segment.end_time = 10 ∧
      segment.duration = 10 - segmenterFix.current_segment_start :=
  (flush_remaining_segment_spec segmenterFix 10 rfl).2
    (by
      rw [show segmenterFix.current_segment_start = 0 from rfl]
      norm_num)

/-! ## Theorems: natural-pause detection -/

theorem silenceEndFrom_eq_find (is_silence : ℚ × ℚ → Bool) (T : ℚ) (l : List (ℚ × ℚ)) :
    silenceEndFrom is_silence T l
      = match l.find? (fun q => !is_silence q) with
        | some q => q.1
        | none => T := by
  induction l with
  | nil => rfl
  | cons p rest ih =>
    by_cases h : is_silence p
    · simp [silenceEndFrom, h, List.find?_cons, ih]
    · simp [silenceEndFrom, h, List.find?_cons]

theorem scanSilenceRun_from_some (is_silence : ℚ × ℚ → Bool) (t : ℚ) (l : List (ℚ × ℚ)) :
    scanSilenceRun is_silence l (some t)
      = (some t, (l.find? (fun q => !is_silence q)).map Prod.fst) := by
  induction l with
  | nil => rfl
  | cons p rest ih =>
    by_cases h : is_silence p
    · simp [scanSilenceRun, h, List.find?_cons, ih]
    · simp [scanSilenceRun, h, List.find?_cons]

theorem firstSilentRunSpec_eq_scan (is_silence : ℚ × ℚ → Bool) (T : ℚ) (l : List (ℚ × ℚ)) :
    firstSilentRunSpec is_silence T l
      = match scanSilenceRun is_silence l none with
        | (some st, some en) => some (st, en)
        | (some st, none) => some (st, T)
        | (none, _) => none := by
  induction l with
  | nil => rfl
  | cons p rest ih =>
    by_cases h : is_silence p
    · rw [show firstSilentRunSpec is_silence T (p :: rest)
          = some (p.1, silenceEndFrom is_silence T (p :: rest)) from by
            simp [firstSilentRunSpec, h]]
      rw [show scanSilenceRun is_silence (p :: rest) none
          = scanSilenceRun is_silence rest (some p.1) from by
            simp [scanSilenceRun, h]]
      rw [scanSilenceRun_from_some]
      rw [show silenceEndFrom is_silence T (p :: rest)
          = silenceEndFrom is_silence T rest from by simp [silenceEndFrom, h]]
      rw [silenceEndFrom_eq_find]
      rcases hf : rest.find? (fun q => !is_silence q) with _ | q <;> simp
    · rw [show firstSilentRunSpec is_silence T (p :: rest)
          = firstSilentRunSpec is_silence T rest from by simp [firstSilentRunSpec, h]]
      rw [show scanSilenceRun is_silence (p :: rest) none
          = scanSilenceRun is_silence rest none from by simp [scanSilenceRun, h]]
      exact ih

/-- The tail of `_detect_natural_pause` (state-machine scan plus the
still-in-silence fix-up and the minimum-duration check) agrees with the
first-maximal-run description of the spec. -/
theorem detect_tail_eq (is_silence : ℚ × ℚ → Bool) (T min_pause : ℚ) (l : List (ℚ × ℚ)) :
    (match (scanSilenceRun is_silence l none).1,
        (match (scanSilenceRun is_silence l none).1, (scanSilenceRun is_silence l none).2 with
         | some _, none => some T
         | _, e => e) with
     | some st, some en => if en - st ≥ min_pause then some (en, en - st) else none
     | _, _ => none)
      = match firstSilentRunSpec is_silence T l with
        | none => none
        | some run =>
          if run.2 - run.1 ≥ min_pause then some (run.2, run.2 - run.1) else none := by
  rw [firstSilentRunSpec_eq_scan]
  rcases hscan : scanSilenceRun is_silence l none with ⟨st, en⟩
  rcases st with _ | st <;> rcases en with _ | en <;> simp

/-- Counterexample to claim C5 as stated: with only two windows in the
volume history — a loud one at `t = 7` and a silent one at `t = 8` — the
code's minimum-history guards (`len < 3`) return no pause at `T = 10`,
while the claim's description (baseline from the loud window, silent run
from `t = 8` still ongoing at `T`, duration `2 ≥ min_pause_duration`)
reports the pause `(10, 2)`. -/
theorem detect_natural_pause_guard_counterexample :
    c5Segmenter.detect_natural_pause 10 = none ∧
    claim_detect_natural_pause c5Segmenter 10 = some (10, 2) := by
  constructor
  · rw [VolumeSegmenter.detect_natural_pause]
    rw [if_pos (by norm_num [c5Segmenter, segmenterFix, mkVolumeSegmenter,
      VolumeSegmenter.start_analysis])]
  · norm_num [claim_detect_natural_pause, c5Segmenter, segmenterFix, mkVolumeSegmenter,
      defaultVolumeConfig, VolumeSegmenter.start_analysis, VolumeSegmenter.recent_volumes,
      firstSilentRunSpec, silenceEndFrom]
    intro hnil
    exact absurd hnil (by simp)

/-- Amended claim C5: provided the volume history holds at least three
windows and at least three of them lie in the trailing lookback window,
`_detect_natural_pause` behaves exactly as the claim describes —
baseline = mean RMS over the (lookback-restricted) history between
`segment_start` and `T - 2` (none: no pause), silent iff RMS below
`silence_threshold` or below `baseline * volume_drop_threshold`, the
first maximal chronological run of silent windows (end `T` if ongoing)
qualifies iff its duration reaches `min_pause_duration`, and the emitted
`natural_pause` segment ends exactly at that run's end. -/
theorem detect_natural_pause_spec (s : VolumeSegmenter) (T : ℚ)
    (h1 : 3 ≤ s.volume_history.length)
    (h2 : 3 ≤ (s.recent_volumes T).length) :
    s.detect_natural_pause T = claim_detect_natural_pause s T ∧
    (∀ pause_end silence_duration,
      s.detect_natural_pause T = some (pause_end, silence_duration) →
      (s.create_segment pause_end "natural_pause" silence_duration).end_time = pause_end) := by
  have hrecent : ∀ p ∈ s.recent_volumes T, T - s.config.lookback_window ≤ p.1 := by
    intro p hp
    have hm := List.mem_filter.mp hp
    have := hm.2
    simp only [decide_eq_true_eq, ge_iff_le] at this
    exact this
  have hfilter : (s.recent_volumes T).filter
      (fun p => decide (max s.current_segment_start (T - s.config.lookback_window) ≤ p.1) &&
        decide (p.1 ≤ T - 2))
      = (s.recent_volumes T).filter
        (fun p => decide (s.current_segment_start ≤ p.1) && decide (p.1 ≤ T - 2)) := by
    apply List.filter_congr
    intro p hp
    have hb := hrecent p hp
    have : decide (max s.current_segment_start (T - s.config.lookback_window) ≤ p.1)
        = decide (s.current_segment_start ≤ p.1) := by
      apply decide_eq_decide.mpr
      constructor
      · intro h
        exact le_trans (le_max_left _ _) h
      · intro h
        exact max_le h hb
    rw [this]
  constructor
  · simp only [VolumeSegmenter.detect_natural_pause, claim_detect_natural_pause]
    rw [if_neg (by omega), if_neg (by omega)]
    rw [hfilter]
    by_cases hbase : ((s.recent_volumes T).filter
        (fun p => decide (s.current_segment_start ≤ p.1) && decide (p.1 ≤ T - 2))).map
          Prod.snd = []
    · rw [if_pos hbase, if_pos hbase]
    · rw [if_neg hbase, if_neg hbase]
      exact detect_tail_eq _ T s.config.min_pause_duration (s.recent_volumes T)
  · intro pause_end silence_duration _
    rfl

/-- Witness for the amended C5: three windows, loud then silent, yield
the pause `(10, 2)` on both the code side and the spec side. -/
theorem detect_natural_pause_spec_witness :
    c5WitnessSegmenter.detect_natural_pause 10
        = claim_detect_natural_pause c5WitnessSegmenter 10 ∧
    (∀ pause_end silence_duration,
      c5WitnessSegmenter.detect_natural_pause 10 = some (pause_end, silence_duration) →
      (c5WitnessSegmenter.create_segment pause_end "natural_pause"
        silence_duration).end_time = pause_end) :=
  detect_natural_pause_spec c5WitnessSegmenter 10 (by decide)
    (by norm_num [VolumeSegmenter.recent_volumes, c5WitnessSegmenter, segmenterFix,
      mkVolumeSegmenter, defaultVolumeConfig, VolumeSegmenter.start_analysis])

/-! ## Theorems: segment partition invariant -/

theorem scanSilenceRun_none_start_mem (is_silence : ℚ × ℚ → Bool) :
    ∀ (l : List (ℚ × ℚ)) (st : ℚ) (en : Option ℚ),
      scanSilenceRun is_silence l none = (some st, en) → st ∈ l.map Prod.fst := by
  intro l
  induction l with
  | nil =>
    intro st en h
    simp [scanSilenceRun] at h
  | cons p rest ih =>
    intro st en h
    by_cases hsil : is_silence p
    · rw [show scanSilenceRun is_silence (p :: rest) none
          = scanSilenceRun is_silence rest (some p.1) from by simp [scanSilenceRun, hsil],
        scanSilenceRun_from_some] at h
      simp only [Prod.mk.injEq, Option.some.injEq] at h
      rw [List.map_cons, ← h.1]
      exact List.mem_cons_self _ _
    · rw [show scanSilenceRun is_silence (p :: rest) none
          = scanSilenceRun is_silence rest none from by simp [scanSilenceRun, hsil]] at h
      exact List.mem_cons_of_mem _ (ih st en h)

/-- Bounds extracted from a successful run of the `_detect_natural_pause`
tail: the reported silence lasts at least `min_pause`, and its end is
either `T` itself or `start + duration` for a window timestamp `start`
of the scanned list. -/
theorem detect_tail_bounds (is_silence : ℚ × ℚ → Bool) (T min_pause e d : ℚ)
    (l : List (ℚ × ℚ))
    (h : (match (scanSilenceRun is_silence l none).1,
        (match (scanSilenceRun is_silence l none).1, (scanSilenceRun is_silence l none).2 with
         | some _, none => some T
         | _, e2 => e2) with
     | some st, some en => if en - st ≥ min_pause then some (en, en - st) else none
     | _, _ => none) = some (e, d)) :
    min_pause ≤ d ∧ (e = T ∨ ∃ t0, t0 ∈ l.map Prod.fst ∧ e - d = t0) := by
  rcases hscan : scanSilenceRun is_silence l none with ⟨st2, en2⟩
  rw [hscan] at h
  rcases st2 with _ | st
  · have h2 : (none : Option (ℚ × ℚ)) = some (e, d) := h
    exact Option.noConfusion h2
  · rcases en2 with _ | en
    · have h2 : (if T - st ≥ min_pause then some (T, T - st) else none) = some (e, d) := h
      split_ifs at h2 with hq
      simp only [Option.some.injEq, Prod.mk.injEq] at h2
      obtain ⟨he, hd⟩ := h2
      exact ⟨by rw [← hd]; exact hq, Or.inl he.symm⟩
    · have h2 : (if en - st ≥ min_pause then some (en, en - st) else none) = some (e, d) := h
      split_ifs at h2 with hq
      simp only [Option.some.injEq, Prod.mk.injEq] at h2
      obtain ⟨he, hd⟩ := h2
      refine ⟨by rw [← hd]; exact hq, Or.inr ⟨st, ?_, ?_⟩⟩
      · exact scanSilenceRun_none_start_mem is_silence l st (some en) hscan
      · rw [← he, ← hd]; ring

/-- Bounds of a reported natural pause: it lasts at least
`min_pause_duration` and ends either at `T` or at `start + duration` for
some window timestamp inside the trailing lookback window. -/
theorem detect_natural_pause_bounds (s : VolumeSegmenter) (T e d : ℚ)
    (h : s.detect_natural_pause T = some (e, d)) :
    s.config.min_pause_duration ≤ d ∧
    (e = T ∨ ∃ t0, t0 ∈ (s.recent_volumes T).map Prod.fst ∧ e - d = t0) := by
  simp only [VolumeSegmenter.detect_natural_pause] at h
  split_ifs at h
  exact detect_tail_bounds _ T s.config.min_pause_duration e d (s.recent_volumes T) h

/-- Any boundary emitted by `_check_for_segment_boundary` starts at the
current segment start, ends strictly later, and has a consistent
duration, provided the configuration is sane (positive max/target
durations, positive minimum pause, lookback not beyond target). -/
theorem check_boundary_bounds (s : VolumeSegmenter) (T : ℚ) (segment : SegmentInfo)
    (hmax : 0 < s.config.max_segment_duration)
    (htar : 0 < s.config.target_segment_duration)
    (hmp : 0 < s.config.min_pause_duration)
    (hlb : s.config.lookback_window ≤ s.config.target_segment_duration)
    (h : s.check_for_segment_boundary T = some segment) :
    segment.start_time = s.current_segment_start ∧
    s.current_segment_start < segment.end_time ∧
    segment.duration = segment.end_time - segment.start_time := by
  simp only [VolumeSegmenter.check_for_segment_boundary] at h
  by_cases h1 : T - s.current_segment_start ≥ s.config.max_segment_duration
  · rw [if_pos h1] at h
    obtain rfl := Option.some.inj h
    refine ⟨rfl, ?_, rfl⟩
    show s.current_segment_start < T
    have hge : s.config.max_segment_duration ≤ T - s.current_segment_start := h1
    linarith
  · rw [if_neg h1] at h
    by_cases h2 : T - s.current_segment_start < s.config.min_segment_duration
    · rw [if_pos h2] at h
      exact Option.noConfusion h
    · rw [if_neg h2] at h
      by_cases h3 : T - s.current_segment_start ≥ s.config.target_segment_duration
      · rw [if_pos h3] at h
        rcases hd : s.detect_natural_pause T with _ | pr
        · rw [hd] at h
          exact Option.noConfusion h
        · rw [hd] at h
          have h2b : some (s.create_segment pr.1 "natural_pause" pr.2) = some segment := h
          obtain rfl := Option.some.inj h2b
          have hd2 : s.detect_natural_pause T = some (pr.1, pr.2) := by rw [hd]
          obtain ⟨hmin, hor⟩ := detect_natural_pause_bounds s T pr.1 pr.2 hd2
          refine ⟨rfl, ?_, rfl⟩
          show s.current_segment_start < pr.1
          have h3b : s.config.target_segment_duration ≤ T - s.current_segment_start := h3
          rcases hor with he | ⟨t0, ht0mem, ht0⟩
          · rw [he]; linarith
          · obtain ⟨p, hpmem, hpe⟩ := List.mem_map.mp ht0mem
            have hplb : T - s.config.lookback_window ≤ p.1 := by
              have hm := (List.mem_filter.mp hpmem).2
              simp only [decide_eq_true_eq, ge_iff_le] at hm
              exact hm
            linarith
      · rw [if_neg h3] at h
        exact Option.noConfusion h

theorem lastEnd_append (l : List SegmentInfo) (x : SegmentInfo) (d : ℚ) :
    lastEnd (l ++ [x]) d = x.end_time := by
  simp [lastEnd, List.foldl_append]

theorem isPartitionFromB_append (l : List SegmentInfo) (segment : SegmentInfo) :
    ∀ (a : ℚ), isPartitionFromB a l = true →
      segment.start_time = lastEnd l a →
      segment.start_time < segment.end_time →
      segment.duration = segment.end_time - segment.start_time →
      isPartitionFromB a (l ++ [segment]) = true := by
  induction l with
  | nil =>
    intro a h1 h2 h3 h4
    have h2b : segment.start_time = a := h2
    simp only [List.nil_append, isPartitionFromB, Bool.and_eq_true, decide_eq_true_eq]
    exact ⟨⟨⟨h2b, h3⟩, h4⟩, trivial⟩
  | cons x rest ih =>
    intro a h1 h2 h3 h4
    simp only [isPartitionFromB, Bool.and_eq_true, decide_eq_true_eq] at h1
    obtain ⟨⟨⟨hx1, hx2⟩, hx3⟩, hrest⟩ := h1
    simp only [List.cons_append, isPartitionFromB, Bool.and_eq_true, decide_eq_true_eq]
    refine ⟨⟨⟨hx1, hx2⟩, hx3⟩, ?_⟩
    exact ih x.end_time hrest h2 h3 h4

/-- Each observable interaction with the segmenter preserves its
configuration and the partition invariant of the detected-segments
list. -/
theorem applySegStep_preserves (s : VolumeSegmenter) (step : SegStep)
    (hmax : 0 < s.config.max_segment_duration)
    (htar : 0 < s.config.target_segment_duration)
    (hmp : 0 < s.config.min_pause_duration)
    (hlb : s.config.lookback_window ≤ s.config.target_segment_duration)
    (hp : isPartitionFromB 0 s.detected_segments = true)
    (hc : s.current_segment_start = lastEnd s.detected_segments 0) :
    (applySegStep s step).config = s.config ∧
    isPartitionFromB 0 (applySegStep s step).detected_segments = true ∧
    (applySegStep s step).current_segment_start
      = lastEnd (applySegStep s step).detected_segments 0 := by
  rcases step with ⟨T, ws⟩ | T
  · simp only [applySegStep, VolumeSegmenter.analyze_and_segment]
    by_cases ha : s.is_analyzing = false
    · rw [if_pos ha]
      exact ⟨rfl, hp, hc⟩
    · rw [if_neg ha]
      by_cases hb : T ≤ s.last_analysis_time
      · rw [if_pos hb]
        exact ⟨rfl, hp, hc⟩
      · rw [if_neg hb]
        rcases hch : (s.update_volume_history T ws).check_for_segment_boundary T
          with _ | seg
        · exact ⟨rfl, hp, hc⟩
        · obtain ⟨hb1, hb2, hb3⟩ :=
            check_boundary_bounds (s.update_volume_history T ws) T seg
              hmax htar hmp hlb hch
          refine ⟨rfl, ?_, ?_⟩
          · show isPartitionFromB 0 (s.detected_segments ++ [seg]) = true
            apply isPartitionFromB_append s.detected_segments seg 0 hp
            · exact hb1.trans hc
            · rw [hb1]; exact hb2
            · exact hb3
          · show seg.end_time = lastEnd (s.detected_segments ++ [seg]) 0
            exact (lastEnd_append _ _ _).symm
  · simp only [applySegStep, VolumeSegmenter.flush_remaining_segment]
    by_cases ha : s.is_analyzing = false
    · rw [if_pos ha]
      exact ⟨rfl, hp, hc⟩
    · rw [if_neg ha]
      by_cases hb : T - s.current_segment_start < 5
      · rw [if_pos hb]
        exact ⟨rfl, hp, hc⟩
      · rw [if_neg hb]
        refine ⟨rfl, ?_, ?_⟩
        · show isPartitionFromB 0 (s.detected_segments ++ [_]) = true
          apply isPartitionFromB_append s.detected_segments _ 0 hp
          · exact hc
          · show s.current_segment_start < T
            linarith [not_lt.mp hb]
          · rfl
        · show T = lastEnd (s.detected_segments ++ [_]) 0
          rw [lastEnd_append]

/-- Amended claim C10: provided the configuration satisfies
`0 < max_segment_duration`, `0 < target_segment_duration`,
`0 < min_pause_duration` and `lookback_window ≤ target_segment_duration`
(all true of the defaults), every run of the segmenter after
`start_analysis` emits a contiguous, non-overlapping, chronologically
ordered partition of audio time: the first segment starts at `0.0`, each
segment starts where the previous one ended, every segment ends strictly
after it starts, and `duration = end_time - start_time`. -/
theorem segment_partition_invariant (s0 : VolumeSegmenter) (steps : List SegStep)
    (hmax : 0 < s0.config.max_segment_duration)
    (htar : 0 < s0.config.target_segment_duration)
    (hmp : 0 < s0.config.min_pause_duration)
    (hlb : s0.config.lookback_window ≤ s0.config.target_segment_duration) :
    isPartitionFromB 0 (runSegSteps s0.start_analysis steps).detected_segments = true := by
  suffices h : ∀ (steps2 : List SegStep) (s : VolumeSegmenter),
      s.config = s0.config →
      isPartitionFromB 0 s.detected_segments = true →
      s.current_segment_start = lastEnd s.detected_segments 0 →
      isPartitionFromB 0 (runSegSteps s steps2).detected_segments = true ∧
      (runSegSteps s steps2).current_segment_start
        = lastEnd (runSegSteps s steps2).detected_segments 0 by
    exact (h steps s0.start_analysis rfl rfl rfl).1
  intro steps2
  induction steps2 with
  | nil =>
    intro s hcfg hp hc
    exact ⟨hp, hc⟩
  | cons st rest ih =>
    intro s hcfg hp hc
    obtain ⟨hcfg2, hp2, hc2⟩ := applySegStep_preserves s st
      (by rw [hcfg]; exact hmax) (by rw [hcfg]; exact htar)
      (by rw [hcfg]; exact hmp) (by rw [hcfg]; exact hlb) hp hc
    have hrun : runSegSteps s (st :: rest) = runSegSteps (applySegStep s st) rest := rfl
    rw [hrun]
    exact ih (applySegStep s st) (hcfg2.trans hcfg) hp2 hc2

/-- Witness for the amended C10: a default-configuration run where a
`max_length` boundary fires at `T = 90`. -/
theorem segment_partition_invariant_witness :
    isPartitionFromB 0 (runSegSteps (mkVolumeSegmenter defaultVolumeConfig).start_analysis
      [SegStep.analyze 90 []]).detected_segments = true :=
  segment_partition_invariant (mkVolumeSegmenter defaultVolumeConfig) [SegStep.analyze 90 []]
    (by norm_num [mkVolumeSegmenter, defaultVolumeConfig])
    (by norm_num [mkVolumeSegmenter, defaultVolumeConfig])
    (by norm_num [mkVolumeSegmenter, defaultVolumeConfig])
    (by norm_num [mkVolumeSegmenter, defaultVolumeConfig])

set_option maxHeartbeats 2000000 in
/-- Counterexample to claim C10 as stated for every configuration: with a
lookback window far larger than the target duration, a stale silent
window from before the current segment is detected as a "natural pause"
a second time, producing a zero-length segment (`start_time = end_time =
1`), so the emitted segments do not form a partition. -/
theorem segment_partition_counterexample :
    isPartitionFromB 0 (runSegSteps (mkVolumeSegmenter c10BadConfig).start_analysis
      c10BadSteps).detected_segments = false := by
  with_unfolding_all decide

/-! ## Theorems: transcript assembly -/

theorem dictFind_mem {β : Type} :
    ∀ (d : List (String × β)) (key : String) (v : β),
      dictFind d key = some v → (key, v) ∈ d := by
  intro d
  induction d with
  | nil =>
    intro key v h
    simp [dictFind] at h
  | cons p rest ih =>
    intro key v h
    rw [dictFind] at h
    split_ifs at h with hk
    · obtain rfl := Option.some.inj h
      rw [← hk]
      exact List.mem_cons_self _ _
    · exact List.mem_cons_of_mem _ (ih key v h)

/-- Pushing the transcript-parts accumulator through the fold of
`get_current_transcript` yields a `filterMap` over the submission
order. -/
theorem transcript_parts_foldl (a : QuickTranscriptAssembler) :
    ∀ (order : List String) (acc : List String),
      order.foldl (fun parts segment_id =>
          match dictFind a.transcription_segments segment_id with
          | some segment =>
            if segment.status == "completed" && segment.transcription.trim != "" then
              parts ++ [segment.transcription.trim]
            else parts
          | none => parts) acc
        = acc ++ order.filterMap (fun segment_id =>
            match dictFind a.transcription_segments segment_id with
            | some segment =>
              if segment.status = "completed" ∧ segment.transcription.trim ≠ ""
              then some segment.transcription.trim else none
            | none => none) := by
  intro order
  induction order with
  | nil =>
    intro acc
    simp
  | cons sid rest ih =>
    intro acc
    simp only [List.foldl_cons, List.filterMap_cons]
    rcases hf : dictFind a.transcription_segments sid with _ | seg
    · rw [ih]
    · by_cases hc : seg.status = "completed" ∧ seg.transcription.trim ≠ ""
      · have hb : (seg.status == "completed" && seg.transcription.trim != "") = true := by
          simp only [Bool.and_eq_true, beq_iff_eq, bne_iff_ne, ne_eq]
          exact ⟨hc.1, hc.2⟩
        simp only [hb, if_true, if_pos hc, ih]
        simp
      · have hb : (seg.status == "completed" && seg.transcription.trim != "") = false := by
          rw [← Bool.not_eq_true]
          simp only [Bool.and_eq_true, beq_iff_eq, bne_iff_ne, ne_eq]
          exact hc
        simp only [hb, if_false, if_neg hc, ih]
        simp

/-- `get_current_transcript` returns exactly the non-empty stripped texts
of completed segments, in submission order, joined with single spaces. -/
theorem get_current_transcript_eq (a : QuickTranscriptAssembler) :
    a.get_current_transcript
      = String.intercalate " " (completedTextsInSubmissionOrder a) := by
  simp only [QuickTranscriptAssembler.get_current_transcript, completedTextsInSubmissionOrder]
  rw [transcript_parts_foldl a a.segment_order []]
  simp

theorem dictFind_dictModify {β : Type} (d : List (String × β)) (key k2 : String)
    (f : β → β) :
    dictFind (dictModify d key f) k2
      = if k2 = key then (dictFind d key).map f else dictFind d k2 := by
  induction d with
  | nil =>
    by_cases hk : k2 = key <;> simp [dictFind, dictModify, hk]
  | cons p rest ih =>
    have e0 : dictModify (p :: rest) key f
        = (if p.1 = key then (p.1, f p.2) else p) :: dictModify rest key f := rfl
    have e2 : dictFind (p :: rest) key
        = if p.1 = key then some p.2 else dictFind rest key := rfl
    have e3 : dictFind (p :: rest) k2
        = if p.1 = k2 then some p.2 else dictFind rest k2 := rfl
    rw [e0]
    by_cases hpk : p.1 = key
    · rw [if_pos hpk]
      have e1 : dictFind ((p.1, f p.2) :: dictModify rest key f) k2
          = if p.1 = k2 then some (f p.2) else dictFind (dictModify rest key f) k2 := rfl
      rw [e1, ih, e2, e3, if_pos hpk]
      by_cases hpk2 : p.1 = k2
      · have hk : k2 = key := hpk2.symm.trans hpk
        rw [if_pos hpk2, if_pos hk]
        simp
      · have hk : ¬(k2 = key) := fun h => hpk2 (hpk.trans h.symm)
        rw [if_neg hpk2, if_neg hk, if_neg hk, if_neg hpk2]
    · rw [if_neg hpk]
      have e1 : dictFind (p :: dictModify rest key f) k2
          = if p.1 = k2 then some p.2 else dictFind (dictModify rest key f) k2 := rfl
      rw [e1, ih, e2, e3, if_neg hpk]
      by_cases hpk2 : p.1 = k2
      · have hk : ¬(k2 = key) := fun h => hpk (hpk2.trans h)
        rw [if_pos hpk2, if_neg hk, if_pos hpk2]
      · rw [if_neg hpk2]
        by_cases hk : k2 = key
        · rw [if_pos hk, if_pos hk]
        · rw [if_neg hk, if_neg hk, if_neg hpk2]

theorem transcriptEquiv_refl (a : QuickTranscriptAssembler) : transcriptEquiv a a :=
  ⟨rfl, fun _ => rfl⟩

theorem transcriptEquiv_trans {a b c : QuickTranscriptAssembler}
    (h1 : transcriptEquiv a b) (h2 : transcriptEquiv b c) : transcriptEquiv a c :=
  ⟨h1.1.trans h2.1, fun sid => (h1.2 sid).trans (h2.2 sid)⟩

theorem get_current_transcript_congr (a b : QuickTranscriptAssembler)
    (h : transcriptEquiv a b) :
    a.get_current_transcript = b.get_current_transcript := by
  rw [get_current_transcript_eq, get_current_transcript_eq]
  congr 1
  simp only [completedTextsInSubmissionOrder, ← h.1]
  apply List.filterMap_congr
  intro sid _
  rw [h.2 sid]

theorem complete_segment_order (a : QuickTranscriptAssembler) (sid text : String)
    (pt : ℚ) :
    (a.complete_segment sid text pt).segment_order = a.segment_order := by
  simp only [QuickTranscriptAssembler.complete_segment,
    QuickTranscriptAssembler.update_empty_segment_counter]
  split_ifs <;> rfl

theorem complete_segment_dictFind (a : QuickTranscriptAssembler) (sid text : String)
    (pt : ℚ) (k2 : String) :
    dictFind (a.complete_segment sid text pt).transcription_segments k2
      = if k2 = sid then
          (dictFind a.transcription_segments sid).map
            (fun segment => { segment with transcription := text, processing_time := pt, status := "completed" })
        else dictFind a.transcription_segments k2 := by
  have hdict : (a.complete_segment sid text pt).transcription_segments
      = if (dictFind a.transcription_segments sid).isSome = true then
          dictModify a.transcription_segments sid
            (fun segment => { segment with transcription := text, processing_time := pt, status := "completed" })
        else a.transcription_segments := by
    simp only [QuickTranscriptAssembler.complete_segment,
      QuickTranscriptAssembler.update_empty_segment_counter]
    split_ifs <;> rfl
  rw [hdict]
  by_cases hs : (dictFind a.transcription_segments sid).isSome = true
  · rw [if_pos hs]
    exact dictFind_dictModify a.transcription_segments sid k2 _
  · rw [if_neg hs]
    have hnone : dictFind a.transcription_segments sid = none := by
      rcases hv : dictFind a.transcription_segments sid with _ | v
      · rfl
      · rw [hv] at hs; simp at hs
    by_cases hk : k2 = sid
    · rw [if_pos hk, hk, hnone]
      simp
    · rw [if_neg hk]

theorem complete_segment_congr (a b : QuickTranscriptAssembler)
    (h : transcriptEquiv a b) (sid text : String) (pt : ℚ) :
    transcriptEquiv (a.complete_segment sid text pt) (b.complete_segment sid text pt) := by
  constructor
  · rw [complete_segment_order, complete_segment_order]
    exact h.1
  · intro k2
    rw [complete_segment_dictFind, complete_segment_dictFind, h.2 k2, h.2 sid]

theorem complete_segment_swap (a : QuickTranscriptAssembler)
    (s1 t1 : String) (p1 : ℚ) (s2 t2 : String) (p2 : ℚ) (hne : s1 ≠ s2) :
    transcriptEquiv ((a.complete_segment s1 t1 p1).complete_segment s2 t2 p2)
      ((a.complete_segment s2 t2 p2).complete_segment s1 t1 p1) := by
  constructor
  · rw [complete_segment_order, complete_segment_order,
      complete_segment_order, complete_segment_order]
  · intro k2
    simp only [complete_segment_dictFind]
    by_cases h2 : k2 = s2 <;> by_cases h1 : k2 = s1
    · exact absurd (h1.symm.trans h2) hne
    · simp [h2, Ne.symm hne]
    · simp [h1, hne]
    · simp [h1, h2]

theorem applyOps_complete_congr (ops : List AssemblerOp) :
    ∀ (a b : QuickTranscriptAssembler), transcriptEquiv a b →
      (∀ op ∈ ops, op.isComplete = true) →
      transcriptEquiv (applyAssemblerOps a ops) (applyAssemblerOps b ops) := by
  induction ops with
  | nil =>
    intro a b h _
    exact h
  | cons op rest ih =>
    intro a b h hall
    have hop := hall op (List.mem_cons_self _ _)
    rcases op with sid | ⟨info, sid, now⟩ | sid | ⟨sid, text, pt⟩ | ⟨sid, err⟩
    · simp [AssemblerOp.isComplete] at hop
    · simp [AssemblerOp.isComplete] at hop
    · simp [AssemblerOp.isComplete] at hop
    · exact ih _ _ (complete_segment_congr a b h sid text pt)
        (fun op2 h2 => hall op2 (List.mem_cons_of_mem _ h2))
    · simp [AssemblerOp.isComplete] at hop

theorem applyOps_complete_perm {ops ops2 : List AssemblerOp} (hperm : ops.Perm ops2) :
    (∀ op ∈ ops, op.isComplete = true) →
    (ops.map AssemblerOp.opId).Nodup →
    ∀ a, transcriptEquiv (applyAssemblerOps a ops) (applyAssemblerOps a ops2) := by
  induction hperm with
  | nil =>
    intro _ _ a
    exact transcriptEquiv_refl _
  | cons x hperm2 ih =>
    intro hall hnodup a
    exact ih (fun op hm => hall op (List.mem_cons_of_mem _ hm))
      (by simpa using (List.nodup_cons.mp (by simpa using hnodup)).2)
      (applyAssemblerOp a x)
  | swap x y l =>
    intro hall hnodup a
    have hy := hall y (List.mem_cons_self _ _)
    have hx := hall x (List.mem_cons_of_mem _ (List.mem_cons_self _ _))
    rcases y with sid | ⟨info, sid, now⟩ | sid | ⟨sy, ty, py⟩ | ⟨sid, err⟩ <;>
      try simp [AssemblerOp.isComplete] at hy
    rcases x with sid | ⟨info, sid, now⟩ | sid | ⟨sx, tx, px⟩ | ⟨sid, err⟩ <;>
      try simp [AssemblerOp.isComplete] at hx
    have hne : sy ≠ sx := by
      have hn : (List.map AssemblerOp.opId
          (AssemblerOp.complete sy ty py :: AssemblerOp.complete sx tx px :: l)).Nodup :=
        hnodup
      simp only [List.map_cons, List.nodup_cons, List.mem_cons, AssemblerOp.opId] at hn
      exact fun h => hn.1 (Or.inl h)
    exact applyOps_complete_congr l _ _
      (complete_segment_swap a sy ty py sx tx px hne)
      (fun op hm => hall op (List.mem_cons_of_mem _ (List.mem_cons_of_mem _ hm)))
  | trans h1 h2 ih1 ih2 =>
    intro hall hnodup a
    refine transcriptEquiv_trans (ih1 hall hnodup a) (ih2 ?_ ?_ a)
    · intro op hm
      exact hall op (h1.mem_iff.mpr hm)
    · exact ((h1.map AssemblerOp.opId).nodup_iff).mp hnodup

/-- Claim C3: `get_current_transcript` returns exactly the non-empty
stripped texts of completed segments, joined with single spaces, iterated
in submission order, and its value is unchanged under any reordering of
the completion events (distinct segment ids). -/
theorem current_transcript_submission_order (a : QuickTranscriptAssembler)
    (ops ops2 : List AssemblerOp) (hperm : ops.Perm ops2)
    (hall : ∀ op ∈ ops, op.isComplete = true)
    (hnodup : (ops.map AssemblerOp.opId).Nodup) :
    (applyAssemblerOps a ops).get_current_transcript
      = String.intercalate " " (completedTextsInSubmissionOrder (applyAssemblerOps a ops)) ∧
    (applyAssemblerOps a ops).get_current_transcript
      = (applyAssemblerOps a ops2).get_current_transcript :=
  ⟨get_current_transcript_eq _,
   get_current_transcript_congr _ _ (applyOps_complete_perm hperm hall hnodup a)⟩

/-- Witness for C3: two segments completed in the two possible orders
give the same transcript, which is the submission-order join. -/
theorem current_transcript_submission_order_witness :
    (applyAssemblerOps assemblerFix
        [AssemblerOp.complete "seg_0.0_30.0" "hello" 1,
         AssemblerOp.complete "seg_30.0_60.0" "world" 1]).get_current_transcript
      = String.intercalate " " (completedTextsInSubmissionOrder (applyAssemblerOps assemblerFix
          [AssemblerOp.complete "seg_0.0_30.0" "hello" 1,
           AssemblerOp.complete "seg_30.0_60.0" "world" 1])) ∧
    (applyAssemblerOps assemblerFix
        [AssemblerOp.complete "seg_0.0_30.0" "hello" 1,
         AssemblerOp.complete "seg_30.0_60.0" "world" 1]).get_current_transcript
      = (applyAssemblerOps assemblerFix
          [AssemblerOp.complete "seg_30.0_60.0" "world" 1,
           AssemblerOp.complete "seg_0.0_30.0" "hello" 1]).get_current_transcript :=
  current_transcript_submission_order assemblerFix _ _
    (List.Perm.swap _ _ _) (by decide) (by decide)

theorem completedTexts_nil_of_no_completed (a : QuickTranscriptAssembler)
    (hnone : ∀ kv ∈ a.transcription_segments, kv.2.status ≠ "completed") :
    completedTextsInSubmissionOrder a = [] := by
  rw [completedTextsInSubmissionOrder, List.filterMap_eq_nil_iff]
  intro sid _
  rcases hf : dictFind a.transcription_segments sid with _ | seg
  · rfl
  · have hst := hnone (sid, seg) (dictFind_mem _ _ _ hf)
    show (if seg.status = "completed" ∧ seg.transcription.trim ≠ ""
      then some seg.transcription.trim else none) = none
    exact if_neg (fun hc => hst hc.1)

/-- Claim C8: when no segment ever reaches status `completed`,
`finalize_transcript` reports `has_content = false` and invokes neither
the persistence contract nor the clipboard contract. -/
theorem finalize_transcript_no_content (a : QuickTranscriptAssembler)
    (persist_path persist_id : String) (clipboard_ok : Bool) (session_id : String)
    (hsession : a.current_session = some session_id)
    (hnone : ∀ kv ∈ a.transcription_segments, kv.2.status ≠ "completed") :
    (a.finalize_transcript persist_path persist_id clipboard_ok).persist_invoked = false ∧
    (a.finalize_transcript persist_path persist_id clipboard_ok).clipboard_invoked = false ∧
    ∃ r, (a.finalize_transcript persist_path persist_id clipboard_ok).result = some r ∧
      r.has_content = false := by
  have htext : a.get_current_transcript = "" := by
    rw [get_current_transcript_eq, completedTexts_nil_of_no_completed a hnone]
    rfl
  have hhc : (("" : String).trim != "") = false := by with_unfolding_all decide
  simp only [QuickTranscriptAssembler.finalize_transcript, hsession]
  rw [htext, hhc]
  refine ⟨rfl, by simp, ?_⟩
  exact ⟨_, rfl, rfl⟩

/-- Witness for C8: a session with a single still-pending segment. -/
theorem finalize_transcript_no_content_witness :
    c8State.current_session = some "sess" ∧
    (∀ kv ∈ c8State.transcription_segments, kv.2.status ≠ "completed") ∧
    ((c8State.finalize_transcript "out.md" "tid" true).persist_invoked = false ∧
     (c8State.finalize_transcript "out.md" "tid" true).clipboard_invoked = false ∧
     ∃ r, (c8State.finalize_transcript "out.md" "tid" true).result = some r ∧
       r.has_content = false) :=
  ⟨by decide, by decide,
   finalize_transcript_no_content c8State "out.md" "tid" true "sess" (by decide) (by decide)⟩

/-! ## Theorems: auto-stop window -/

theorem auto_stop_reason_ne_empty (s1 s2 s3 : String) :
    "Last " ++ s1 ++ " segments combined have < " ++ s2 ++ " chars (" ++ s3 ++ " chars)"
      ≠ "" := by
  intro heq
  have hlen := congrArg String.length heq
  simp only [String.length_append] at hlen
  have h1 : ("Last " : String).length = 5 := by decide
  have h2 : ("" : String).length = 0 := by decide
  rw [h1, h2] at hlen
  omega

theorem drop_last_stable {γ : Type} (l m : List γ) (thr : Nat) :
    ((l.drop (l.length - thr)) ++ m).drop (((l.drop (l.length - thr)) ++ m).length - thr)
      = (l ++ m).drop ((l ++ m).length - thr) := by
  rcases le_or_lt l.length thr with hL | hL
  · rw [Nat.sub_eq_zero_of_le hL, List.drop_zero]
  · have hlen2 : (l.drop (l.length - thr)).length = thr := by
      rw [List.length_drop]
      omega
    rw [List.length_append, List.length_append, hlen2]
    rw [List.drop_append_eq_append_drop, List.drop_append_eq_append_drop]
    rw [List.drop_drop, hlen2]
    congr 1
    · congr 1
      omega
    · congr 1
      omega

theorem applyOp_recent_non_complete (a : QuickTranscriptAssembler) (op : AssemblerOp)
    (hop : op.isComplete = false) :
    (applyAssemblerOp a op).recent_segment_texts = a.recent_segment_texts ∧
    (applyAssemblerOp a op).empty_segment_threshold = a.empty_segment_threshold ∧
    (applyAssemblerOp a op).empty_segment_min_chars = a.empty_segment_min_chars := by
  rcases op with sid | ⟨info, sid, now⟩ | sid | ⟨sid, text, pt⟩ | ⟨sid, err⟩
  · exact ⟨rfl, rfl, rfl⟩
  · simp only [applyAssemblerOp, QuickTranscriptAssembler.add_segment_for_transcription]
    split_ifs <;> exact ⟨rfl, rfl, rfl⟩
  · simp only [applyAssemblerOp, QuickTranscriptAssembler.set_processing]
    split_ifs <;> exact ⟨rfl, rfl, rfl⟩
  · simp [AssemblerOp.isComplete] at hop
  · simp only [applyAssemblerOp, QuickTranscriptAssembler.fail_segment]
    split_ifs <;> exact ⟨rfl, rfl, rfl⟩

theorem complete_segment_recent (a : QuickTranscriptAssembler) (sid text : String)
    (pt : ℚ) :
    (a.complete_segment sid text pt).recent_segment_texts
      = (if a.empty_segment_threshold < (a.recent_segment_texts ++ [text.trim]).length
         then (a.recent_segment_texts ++ [text.trim]).drop 1
         else a.recent_segment_texts ++ [text.trim]) ∧
    (a.complete_segment sid text pt).empty_segment_threshold = a.empty_segment_threshold ∧
    (a.complete_segment sid text pt).empty_segment_min_chars = a.empty_segment_min_chars := by
  simp only [QuickTranscriptAssembler.complete_segment,
    QuickTranscriptAssembler.update_empty_segment_counter]
  split_ifs <;> exact ⟨rfl, rfl, rfl⟩

/-- The auto-stop sliding window after any operation sequence holds
exactly the last `empty_segment_threshold` stripped texts of the
completion events, in completion order. -/
theorem recent_texts_after (ops : List AssemblerOp) :
    ∀ (a : QuickTranscriptAssembler),
      a.recent_segment_texts.length ≤ a.empty_segment_threshold →
      (applyAssemblerOps a ops).empty_segment_threshold = a.empty_segment_threshold ∧
      (applyAssemblerOps a ops).empty_segment_min_chars = a.empty_segment_min_chars ∧
      (applyAssemblerOps a ops).recent_segment_texts
        = (a.recent_segment_texts ++ completeTexts ops).drop
            ((a.recent_segment_texts ++ completeTexts ops).length
              - a.empty_segment_threshold) := by
  induction ops with
  | nil =>
    intro a hlen
    refine ⟨rfl, rfl, ?_⟩
    rw [show completeTexts [] = [] from rfl, List.append_nil,
      Nat.sub_eq_zero_of_le hlen, List.drop_zero]
    exact rfl
  | cons op rest ih =>
    intro a hlen
    have step : ∀ (op2 : AssemblerOp), op2.isComplete = false →
        completeTexts (op2 :: rest) = completeTexts rest →
        applyAssemblerOps a (op2 :: rest) = applyAssemblerOps (applyAssemblerOp a op2) rest →
        (applyAssemblerOps a (op2 :: rest)).empty_segment_threshold
            = a.empty_segment_threshold ∧
        (applyAssemblerOps a (op2 :: rest)).empty_segment_min_chars
            = a.empty_segment_min_chars ∧
        (applyAssemblerOps a (op2 :: rest)).recent_segment_texts
          = (a.recent_segment_texts ++ completeTexts (op2 :: rest)).drop
              ((a.recent_segment_texts ++ completeTexts (op2 :: rest)).length
                - a.empty_segment_threshold) := by
      intro op2 hcf hct hstep
      have hpre := applyOp_recent_non_complete a op2 hcf
      have hlen2 : (applyAssemblerOp a op2).recent_segment_texts.length
          ≤ (applyAssemblerOp a op2).empty_segment_threshold := by
        rw [hpre.1, hpre.2.1]
        exact hlen
      obtain ⟨hthr, hmc, hfin⟩ := ih (applyAssemblerOp a op2) hlen2
      rw [hstep, hct]
      exact ⟨hthr.trans hpre.2.1, hmc.trans hpre.2.2,
        by rw [hfin, hpre.1, hpre.2.1]⟩
    rcases op with sid | ⟨info, sid, now⟩ | sid | ⟨sid, text, pt⟩ | ⟨sid, err⟩
    · exact step _ rfl rfl rfl
    · exact step _ rfl rfl rfl
    · exact step _ rfl rfl rfl
    · -- completion: the window absorbs the new stripped text and is capped
      have hrec := complete_segment_recent a sid text pt
      have hcap : (a.complete_segment sid text pt).recent_segment_texts
          = (a.recent_segment_texts ++ [text.trim]).drop
              ((a.recent_segment_texts ++ [text.trim]).length - a.empty_segment_threshold) := by
        rw [hrec.1]
        split_ifs with hlt
        · congr 1
          simp only [List.length_append, List.length_cons, List.length_nil] at *
          omega
        · rw [show (a.recent_segment_texts ++ [text.trim]).length - a.empty_segment_threshold
              = 0 from by simp only [List.length_append, List.length_cons, List.length_nil] at *; omega,
            List.drop_zero]
      have hlen2 : (a.complete_segment sid text pt).recent_segment_texts.length
          ≤ (a.complete_segment sid text pt).empty_segment_threshold := by
        rw [hcap, hrec.2.1, List.length_drop]
        omega
      obtain ⟨hthr, hmc, hfin⟩ := ih (a.complete_segment sid text pt) hlen2
      have hstep : applyAssemblerOps a (AssemblerOp.complete sid text pt :: rest)
          = applyAssemblerOps (a.complete_segment sid text pt) rest := rfl
      have hct : completeTexts (AssemblerOp.complete sid text pt :: rest)
          = text.trim :: completeTexts rest := rfl
      rw [hstep, hct]
      refine ⟨hthr.trans hrec.2.1, hmc.trans hrec.2.2, ?_⟩
      rw [hfin, hcap, hrec.2.1]
      rw [drop_last_stable (a.recent_segment_texts ++ [text.trim]) (completeTexts rest)
        a.empty_segment_threshold]
      have hass : (a.recent_segment_texts ++ [text.trim]) ++ completeTexts rest
          = a.recent_segment_texts ++ (text.trim :: completeTexts rest) := by
        simp
      rw [hass]
    · exact step _ rfl rfl rfl

/-- Claim C7 (amended): starting from a fresh assembler, after any
sequence of operations the auto-stop window holds the last
`empty_segment_threshold` stripped texts of the completed transcriptions
in COMPLETION order (not submission order); `should_auto_stop` fires
exactly when at least `empty_segment_threshold` completions have
accumulated and the combined stripped window text is shorter than
`empty_segment_min_chars`, in which case the reason string is non-empty,
and it returns `(false, "")` in every other case. -/
theorem should_auto_stop_spec (thr mc : Nat) (clip : Bool) (ops : List AssemblerOp) :
    (applyAssemblerOps (mkQuickTranscriptAssembler thr mc clip) ops).recent_segment_texts
        = autoStopWindow thr ops ∧
    ((applyAssemblerOps (mkQuickTranscriptAssembler thr mc clip) ops).should_auto_stop.1
          = true
        ↔ thr ≤ (completeTexts ops).length ∧
          (String.intercalate " " (autoStopWindow thr ops)).trim.length < mc) ∧
    ((applyAssemblerOps (mkQuickTranscriptAssembler thr mc clip) ops).should_auto_stop
          = (false, "") ∨
      ((applyAssemblerOps (mkQuickTranscriptAssembler thr mc clip) ops).should_auto_stop.1
          = true ∧
       (applyAssemblerOps (mkQuickTranscriptAssembler thr mc clip) ops).should_auto_stop.2
          ≠ "")) := by
  obtain ⟨hthr, hmc, hrec⟩ :=
    recent_texts_after ops (mkQuickTranscriptAssembler thr mc clip) (Nat.zero_le thr)
  set st := applyAssemblerOps (mkQuickTranscriptAssembler thr mc clip) ops with hst
  have hthr2 : st.empty_segment_threshold = thr := hthr
  have hmc2 : st.empty_segment_min_chars = mc := hmc
  have hrec2 : st.recent_segment_texts = autoStopWindow thr ops := hrec
  have hval : st.should_auto_stop
      = (if (autoStopWindow thr ops).length < thr then ((false : Bool), "")
         else if (String.intercalate " " (autoStopWindow thr ops)).trim.length < mc then
           ((true : Bool), "Last " ++ toString thr ++ " segments combined have < "
             ++ toString mc ++ " chars ("
             ++ toString (String.intercalate " " (autoStopWindow thr ops)).trim.length
             ++ " chars)")
         else ((false : Bool), "")) := by
    simp only [QuickTranscriptAssembler.should_auto_stop, hrec2, hthr2, hmc2]
  refine ⟨hrec2, ?_, ?_⟩
  · rw [hval]
    split_ifs with h1 h2
    · refine iff_of_false (by simp) (fun hco => ?_)
      rw [autoStopWindow, List.length_drop] at h1
      omega
    · refine iff_of_true rfl ⟨?_, h2⟩
      rw [autoStopWindow, List.length_drop] at h1
      omega
    · exact iff_of_false (by simp) (fun hco => h2 hco.2)
  · rw [hval]
    split_ifs with h1 h2
    · exact Or.inl rfl
    · exact Or.inr ⟨rfl, auto_stop_reason_ne_empty _ _ _⟩
    · exact Or.inl rfl

/-- Counterexample to claim C7 as stated: with submission order A, B, C
but completion order C, A, B, the code's window holds the two empty
texts and fires the auto-stop, while the claimed submission-order window
holds C's substantial text and would not fire. -/
theorem should_auto_stop_order_counterexample :
    (c7State.should_auto_stop).1 = true ∧ claimAutoStop c7State = false := by
  with_unfolding_all decide

end RejoiceSlim
